import Mathlib

/-!
# compression.go: the MySQL compressed-packet layer

A shallow embedding of `compressableReaderConn` and `compressableWriterConn`
(compression.go) and theorems about their framing behaviour.

Conventions of the embedding

* a `[]byte` is a `List Byte` with `Byte := Nat`; a value stored through Go's
  `byte(x)` conversion is `x % 256`, a `uint8` increment is `(x + 1) % 256`;
* a `Read(b)` call is given `len(b)` and returns the bytes it stored in `b`
  (so `n` is the length of the returned list);
* the wrapped `net.Conn` is explicit state: the bytes still to be received,
  and the log of the raw `Write` calls made so far;
* recursion of `Read` / `Write` into themselves is bounded by a fuel argument;
  `Outcome.running` is the answer of a call whose fuel ran out.
* the `fmt.Println` / `hex.Dumper` output of `Write` goes to standard output,
  not to the connection, and is not part of the state.
-/

set_option linter.unusedVariables false

namespace Compression

abbrev Byte := Nat

/-- Error values produced outside compression.go: by the wrapped `net.Conn`,
by the frame source, or by `compress/zlib`. -/
inductive StreamError where
  | EOF
  | ErrUnexpectedEOF
  | other (code : Nat)
  deriving DecidableEq, Repr

/-- Error values returned by `Read` and `Write`: either an error handed through
from a collaborator, or the error built by `fmt.Errorf` in `Read`. -/
inductive Error where
  | io (e : StreamError)
  | wrongSeq (got expected : Nat)
  deriving DecidableEq, Repr

/-- Text of the `fmt.Errorf("wrong seq number [%d != %d] on compressed connection", ..)`
error; collaborators' errors keep their own text, which is not modelled. -/
def Error.message : Error → String
  | .wrongSeq got expected =>
      "wrong seq number [" ++ toString got ++ " != " ++ toString expected ++
        "] on compressed connection"
  | .io _ => ""

/-- How a call ended: it returned, it panicked (index out of range, nil
dereference), or it was still running when the fuel ran out. -/
inductive Outcome (α : Type) where
  | returned (a : α)
  | panicked
  | running
  deriving DecidableEq, Repr

/-- The wrapped `net.Conn`.  `rx` are the bytes the peer has sent and that have
not been read yet, `rxErr` is what a read reports once they are used up; `tx`
lists the argument of every raw `Write` call so far, oldest first, and `txPlan`
gives the outcome of the coming raw `Write` calls (head first, `none` or an
exhausted plan meaning success). -/
structure NetConn where
  rx : List Byte
  rxErr : StreamError
  tx : List (List Byte)
  txPlan : List (Option StreamError)
  deriving DecidableEq, Repr

/-- Raw `Conn.Read(b)` with `len(b) = cap`. -/
def NetConn.Read (nc : NetConn) (cap : Nat) : NetConn × List Byte × Option StreamError :=
  match nc.rx with
  | [] => (nc, [], some nc.rxErr)
  | _ :: _ => ({ nc with rx := nc.rx.drop cap }, nc.rx.take cap, none)

/-- Raw `Conn.Write(b)`: the call is logged in `tx` and answered from `txPlan`. -/
def NetConn.Write (nc : NetConn) (b : List Byte) : NetConn × Nat × Option StreamError :=
  match nc.txPlan with
  | some e :: plan => ({ nc with tx := nc.tx ++ [b], txPlan := plan }, 0, some e)
  | none :: plan => ({ nc with tx := nc.tx ++ [b], txPlan := plan }, b.length, none)
  | [] => ({ nc with tx := nc.tx ++ [b] }, b.length, none)

/-- Every coming raw write succeeds. -/
def NetConn.writesSucceed (nc : NetConn) : Prop := ∀ o ∈ nc.txPlan, o = none

instance (nc : NetConn) : Decidable nc.writesSucceed := by
  unfold NetConn.writesSucceed; exact inferInstance

/-- Modelled from the spec: `buffer.readNext`, the method of the `buffer` type
(field `buff`), which is declared outside compression.go.  Spec 4.3: it
delivers exactly `need` bytes from the raw stream or fails; it never returns
fewer bytes on success.  `buff.nc` refers to the wrapped connection, which the
embedding passes explicitly. -/
def buffer.readNext (nc : NetConn) (need : Nat) : NetConn × Except StreamError (List Byte) :=
  if need ≤ nc.rx.length then
    ({ nc with rx := nc.rx.drop need }, .ok (nc.rx.take need))
  else
    (nc, .error nc.rxErr)

/-- The `io.ReadCloser` that `zlib.NewReader` returns.  Its output becomes
available piece by piece (the flate reader hands out at most one 32 KiB window
at a time): `chunks` are the pieces not yet handed out, in order, and `final`
is the error reported once they are used up (`io.EOF` after a well-formed
stream).  An empty last chunk stands for a final error that arrives with a
read of 0 bytes. -/
structure ReadCloser where
  chunks : List (List Byte)
  final : StreamError
  deriving DecidableEq, Repr

/-- `remainder.Read(b)` with `len(b) = cap`: copies what fits from the current
chunk only, so a read can return fewer than `cap` bytes while more output is to
come; the final error comes with the read that empties the last chunk, and
with every later one. -/
def ReadCloser.Read (r : ReadCloser) (cap : Nat) : ReadCloser × List Byte × Option StreamError :=
  match r.chunks with
  | [] => (r, [], some r.final)
  | ch :: rest =>
    if ch.drop cap = [] then
      match rest with
      | [] => ({ r with chunks := [] }, ch, some r.final)
      | _ :: _ => ({ r with chunks := rest }, ch, none)
    else ({ r with chunks := ch.drop cap :: rest }, ch.take cap, none)

/-- All the output that the reader has yet to hand out. -/
def ReadCloser.pending (r : ReadCloser) : List Byte := r.chunks.flatten

/-- The bytes a decoder still holds in its remainder. -/
def remainderBytes : Option ReadCloser → List Byte
  | none => []
  | some r => r.pending

/-- The pieces in which the flate reader hands out inflated data `d`: windows
of 32768 bytes, then what is left; after a last full window the end of the
stream arrives with a read of 0 bytes (an empty piece). -/
def flateChunksFrom : Nat → List Byte → List (List Byte)
  | 0, d => [d]
  | fuel + 1, d =>
    if d.length < 32768 then [d] else d.take 32768 :: flateChunksFrom fuel (d.drop 32768)

def flateChunks (d : List Byte) : List (List Byte) :=
  if d = [] then [] else flateChunksFrom d.length d

/-- Number of `Read` calls with buffers of `cap` bytes that it takes to use up
one chunk. -/
def chunkReads (cap : Nat) (ch : List Byte) : Nat := max 1 ((ch.length + cap - 1) / cap)

/-- Number of `Read` calls with buffers of `cap` bytes that it takes to reach
the end of a reader with the given chunks. -/
def readsNeeded (cap : Nat) (chunks : List (List Byte)) : Nat :=
  if chunks = [] then 1 else (chunks.map (chunkReads cap)).sum

/-- The `compress/zlib` package as used by compression.go.
`compress b` is the content of `c.compressor` after
`Reset`, `zlib.NewWriterLevel(&c.compressor, zlib.BestSpeed)`, `zw.Write(b)`,
`zw.Close()` (or the first error of these calls) when `b` is a buffer of the
caller; `recompress b` is the same when `b` is `c.compressor.Bytes()` itself,
whose storage the compressor overwrites while reading it;
`NewReader d` is `zlib.NewReader(bytes.NewReader(d))`. -/
structure Codec where
  compress : List Byte → Except StreamError (List Byte)
  recompress : List Byte → Except StreamError (List Byte)
  NewReader : List Byte → Except StreamError ReadCloser

structure compressableReaderConn where
  Conn : NetConn
  compression : Bool
  seq : Nat
  remainder : Option ReadCloser
  deriving DecidableEq, Repr

structure compressableWriterConn where
  Conn : NetConn
  compression : Bool
  seq : Nat
  header : Option (List Byte)
  compressor : List Byte
  deriving DecidableEq, Repr

/-- Result `(n, err)` of a `Read(b)` call together with the `n` bytes stored in `b`. -/
structure ReadResult where
  data : List Byte
  err : Option Error
  deriving DecidableEq, Repr

def ReadResult.n (r : ReadResult) : Nat := r.data.length

/-- `math.MaxInt8`. -/
def MaxInt8 : Nat := 127

/-- `compressableReaderConn.activateCompression`; `c.buff.nc = c.Conn` points the
frame source at the wrapped connection, see `buffer.readNext`. -/
def compressableReaderConn.activateCompression (c : compressableReaderConn) :
    compressableReaderConn × Option Error :=
  ({ c with remainder := none, seq := MaxInt8, compression := true }, none)

/-- `compressableWriterConn.activateCompression`. -/
def compressableWriterConn.activateCompression (c : compressableWriterConn) :
    compressableWriterConn × Option Error :=
  ({ c with
      compression := true
      seq := 0
      header := match c.header with
        | none => some (List.replicate 7 0)
        | some h => some h }, none)

/-- `compressableReaderConn.readCompressedHeader`: returns the connection
after the read and `(length, sequence id, err)`. -/
def compressableReaderConn.readCompressedHeader (c : compressableReaderConn) :
    compressableReaderConn × Nat × Nat × Option Error :=
  match buffer.readNext c.Conn 7 with
  | (nc, .error e) => ({ c with Conn := nc }, 0, 0, some (.io e))
  | (nc, .ok data) =>
    ({ c with Conn := nc },
      (data.getD 0 0) ||| ((data.getD 1 0) <<< 8) ||| ((data.getD 2 0) <<< 16),
      data.getD 3 0,
      none)

/-- `compressableReaderConn.Read` with a bound `fuel` on the depth of its
recursion. -/
def compressableReaderConn.ReadN (z : Codec) :
    Nat → compressableReaderConn → Nat → compressableReaderConn × Outcome ReadResult
  | 0, c, _ => (c, .running)
  | fuel + 1, c, cap =>
    if !c.compression then
      match c.Conn.Read cap with
      | (nc, data, err) => ({ c with Conn := nc }, .returned ⟨data, err.map Error.io⟩)
    else
      match c.remainder with
      | some r =>
        match r.Read cap with
        | (r1, data, err) =>
          if err = some StreamError.EOF then
            ({ c with remainder := none }, .returned ⟨data, none⟩)
          else
            ({ c with remainder := some r1 }, .returned ⟨data, err.map Error.io⟩)
      | none =>
        match c.readCompressedHeader with
        | (c1, _, _, some e) => (c1, .returned ⟨[], some e⟩)
        | (c1, payloadLen, seq, none) =>
          if seq ≠ (c1.seq + 1) % 256 then
            (c1, .returned ⟨[], some (.wrongSeq seq ((c1.seq + 1) % 256))⟩)
          else
            let c2 := { c1 with seq := (c1.seq + 1) % 256 }
            match buffer.readNext c2.Conn payloadLen with
            | (nc, .error e) => ({ c2 with Conn := nc }, .returned ⟨[], some (.io e)⟩)
            | (nc, .ok compressed) =>
              match z.NewReader compressed with
              | .error e =>
                ({ c2 with Conn := nc, remainder := none }, .returned ⟨[], some (.io e)⟩)
              | .ok r =>
                compressableReaderConn.ReadN z fuel
                  { c2 with Conn := nc, remainder := some r } cap

/-- `compressableReaderConn.Read`: two levels of the recursion are all a call
can use (`ReadN_fuel`). -/
def compressableReaderConn.Read (z : Codec) (c : compressableReaderConn) (cap : Nat) :
    compressableReaderConn × Outcome ReadResult :=
  compressableReaderConn.ReadN z 2 c cap

/-- `compressableWriterConn.writeHeader`.  The stores `c.header[0..6]` panic
when the header slice is shorter than 7. -/
def compressableWriterConn.writeHeader (c : compressableWriterConn)
    (compressed uncompressed : Nat) : Outcome (compressableWriterConn × Option Error) :=
  match c.header with
  | none => .panicked
  | some h =>
    if h.length < 7 then .panicked
    else
      let h0 := h.set 0 (compressed % 256)
      let h1 := h0.set 1 ((compressed >>> 8) % 256)
      let h2 := h1.set 2 ((compressed >>> 16) % 256)
      let h3 := h2.set 3 (c.seq % 256)
      let h4 := h3.set 4 (compressed % 256)
      let h5 := h4.set 5 ((compressed >>> 8) % 256)
      let h6 := h5.set 6 ((compressed >>> 16) % 256)
      match c.Conn.Write h6 with
      | (nc, _, err) =>
        .returned ({ c with header := some h6, seq := (c.seq + 1) % 256, Conn := nc },
          err.map Error.io)

/-- `compressableWriterConn.Write` with a bound `fuel` on the depth of its
recursion.  `own` tells that `b` is `c.compressor.Bytes()`, as in the
recursive call `c.Write(res)`. -/
def compressableWriterConn.WriteN (z : Codec) :
    Nat → compressableWriterConn → List Byte → Bool →
      compressableWriterConn × Outcome (Nat × Option Error)
  | 0, c, _, _ => (c, .running)
  | fuel + 1, c, b, own =>
    if !c.compression then
      match c.Conn.Write b with
      | (nc, n, err) => ({ c with Conn := nc }, .returned (n, err.map Error.io))
    else if b.length ≤ 50 then
      match c.writeHeader b.length 0 with
      | .panicked => (c, .panicked)
      | .running => (c, .running)
      | .returned (c1, some e) => (c1, .returned (0, some e))
      | .returned (c1, none) => compressableWriterConn.WriteN z fuel c1 b own
    else
      match (if own then z.recompress b else z.compress b) with
      | .error e => ({ c with compressor := [] }, .returned (0, some (.io e)))
      | .ok res =>
        let c0 := { c with compressor := res }
        match c0.writeHeader res.length b.length with
        | .panicked => (c0, .panicked)
        | .running => (c0, .running)
        | .returned (c1, some e) => (c1, .returned (0, some e))
        | .returned (c1, none) => compressableWriterConn.WriteN z fuel c1 res true

/-- `compressableWriterConn.Write(b)` called from outside with at most `fuel`
nested calls. -/
def compressableWriterConn.Write (z : Codec) (fuel : Nat) (c : compressableWriterConn)
    (b : List Byte) : compressableWriterConn × Outcome (Nat × Option Error) :=
  compressableWriterConn.WriteN z fuel c b false

/-- The seven bytes that the stores of `writeHeader(compressed, _)` leave in
`c.header` when the counter is `seq`. -/
def headerBytes (compressed seq : Nat) : List Byte :=
  [compressed % 256, (compressed >>> 8) % 256, (compressed >>> 16) % 256, seq % 256,
    compressed % 256, (compressed >>> 8) % 256, (compressed >>> 16) % 256]

/-- Wire format, offset 0: compressed body length, 24 bit little-endian. -/
def lengthField (h : List Byte) : Nat := h.getD 0 0 + 256 * h.getD 1 0 + 65536 * h.getD 2 0

/-- Wire format, offset 3: sequence id. -/
def seqField (h : List Byte) : Nat := h.getD 3 0

/-- Wire format, offset 4: length before compression, 24 bit little-endian. -/
def uncompressedField (h : List Byte) : Nat :=
  h.getD 4 0 + 256 * h.getD 5 0 + 65536 * h.getD 6 0

/-- The header slice has been allocated: `c.header` is a 7-byte slice. -/
def compressableWriterConn.headerReady (c : compressableWriterConn) : Prop :=
  ∃ h, c.header = some h ∧ h.length = 7

/-- The raw `Write` calls made on the way from state `c` to state `c1`. -/
def rawWrites (c c1 : compressableWriterConn) : List (List Byte) :=
  c1.Conn.tx.drop c.Conn.tx.length

/-- A codec for closed evaluations: the two-byte zlib header `78 01` followed by
the data as they are.  `NewReader` applies the header test of `zlib.NewReader`
(deflate method, window of at most 32K, check bits, no preset dictionary). -/
def plainCodec : Codec where
  compress b := .ok (0x78 :: 0x01 :: b)
  recompress b := .ok (0x78 :: 0x01 :: b)
  NewReader d :=
    match d with
    | cmf :: flg :: rest =>
      if cmf % 16 = 8 ∧ cmf / 16 ≤ 7 ∧ (cmf * 256 + flg) % 31 = 0 ∧ (flg / 32) % 2 = 0 then
        .ok ⟨flateChunks rest, .EOF⟩
      else .error (.other 1)
    | _ => .error .ErrUnexpectedEOF

/-- A connection on which nothing has happened yet, with `rx` to be received. -/
def freshConn (rx : List Byte) : NetConn := ⟨rx, .EOF, [], []⟩

/-- The zero value of `compressableWriterConn` around a connection. -/
def newWriter (nc : NetConn) : compressableWriterConn := ⟨nc, false, 0, none, []⟩

/-- The zero value of `compressableReaderConn` around a connection. -/
def newReader (nc : NetConn) : compressableReaderConn := ⟨nc, false, 0, none⟩

/-- The length that `readCompressedHeader` computes from header bytes. -/
def parsedLength (data : List Byte) : Nat :=
  (data.getD 0 0) ||| ((data.getD 1 0) <<< 8) ||| ((data.getD 2 0) <<< 16)

/-- The call failed with the error that `Read` builds for a wrong sequence id. -/
def isSeqError (o : Outcome ReadResult) : Prop :=
  ∃ r got expected, o = .returned r ∧ r.err = some (.wrongSeq got expected)

/-- Consecutive `writeHeader` calls, one per pair of arguments, up to the
first that panics. -/
def writeHeaders : compressableWriterConn → List (Nat × Nat) → compressableWriterConn
  | c, [] => c
  | c, (compressed, uncompressed) :: args =>
    match c.writeHeader compressed uncompressed with
    | .returned (c1, _) => writeHeaders c1 args
    | _ => c

/-- Successive `Read` calls of a caller with buffers of the sizes `caps`, made
for as long as a remainder is pending; the bytes they returned, in order. -/
def drainRemainder (z : Codec) :
    compressableReaderConn → List Nat → compressableReaderConn × List Byte
  | c, [] => (c, [])
  | c, cap :: caps =>
    match c.remainder with
    | none => (c, [])
    | some _ =>
      match c.Read z cap with
      | (c1, .returned r) =>
        ((drainRemainder z c1 caps).1, r.data ++ (drainRemainder z c1 caps).2)
      | (c1, _) => (c1, [])

/-- Adler-32 of a byte string, as the pair of its two 16-bit halves `(a, b)`;
the checksum trailer of a zlib stream is `b` then `a`, each big-endian. -/
def adler32 (d : List Byte) : Nat × Nat :=
  d.foldl (fun s x => ((s.1 + x) % 65521, (s.2 + (s.1 + x) % 65521) % 65521)) (1, 0)

/-- Inflate a deflate stream that consists of stored blocks only (block header
byte with BTYPE = 00, then LEN and its complement NLEN, little-endian, then
LEN bytes): the output and the bytes after the final block.  `none` for a
stream that is malformed or uses a compressed block type. -/
def inflateStored : Nat → List Byte → Option (List Byte × List Byte)
  | fuel + 1, hd :: l0 :: l1 :: n0 :: n1 :: rest =>
    if (hd / 2) % 4 ≠ 0 then none
    else if n0 + 256 * n1 ≠ 65535 - (l0 + 256 * l1) then none
    else if rest.length < l0 + 256 * l1 then none
    else if hd % 2 = 1 then some (rest.take (l0 + 256 * l1), rest.drop (l0 + 256 * l1))
    else
      match inflateStored fuel (rest.drop (l0 + 256 * l1)) with
      | some (out, tail) => some (rest.take (l0 + 256 * l1) ++ out, tail)
      | none => none
  | _, _ => none

/-- The zlib format restricted to stored blocks, for closed evaluations on real
zlib bytes: `compress` emits header `78 01`, one final stored block and the
Adler-32 trailer (payloads below 65536 bytes); `NewReader` applies the header
test of `zlib.NewReader` and yields the inflated data, ended by `io.EOF` when
the trailer matches.  Streams with compressed blocks are outside this
fragment and are reported as an error by the reader. -/
def storedZlib : Codec where
  compress b :=
    .ok ([0x78, 0x01, 0x01, b.length % 256, b.length / 256 % 256,
          (65535 - b.length) % 256, (65535 - b.length) / 256 % 256] ++ b ++
         [(adler32 b).2 / 256, (adler32 b).2 % 256, (adler32 b).1 / 256, (adler32 b).1 % 256])
  recompress b :=
    .ok ([0x78, 0x01, 0x01, b.length % 256, b.length / 256 % 256,
          (65535 - b.length) % 256, (65535 - b.length) / 256 % 256] ++ b ++
         [(adler32 b).2 / 256, (adler32 b).2 % 256, (adler32 b).1 / 256, (adler32 b).1 % 256])
  NewReader d :=
    match d with
    | cmf :: flg :: deflate =>
      if cmf % 16 = 8 ∧ cmf / 16 ≤ 7 ∧ (cmf * 256 + flg) % 31 = 0 ∧ (flg / 32) % 2 = 0 then
        match inflateStored deflate.length deflate with
        | some (out, tail) =>
          if tail = [(adler32 out).2 / 256, (adler32 out).2 % 256,
                     (adler32 out).1 / 256, (adler32 out).1 % 256] then
            .ok ⟨flateChunks out, .EOF⟩
          else .ok ⟨flateChunks out, .other 2⟩
        | none => .ok ⟨[], .other 3⟩
      else .error (.other 1)
    | _ => .error .ErrUnexpectedEOF

/-- The writer states that a program can reach: from the zero value of the
struct, by `activateCompression`, by `Write` (observed at any depth of its
recursion), by a `writeHeader` call that returns, and by whatever happens to
the wrapped connection in between. -/
inductive WriterReachable (z : Codec) : compressableWriterConn → Prop where
  | zero (nc : NetConn) : WriterReachable z (newWriter nc)
  | activate {c : compressableWriterConn} :
      WriterReachable z c → WriterReachable z c.activateCompression.1
  | write {c : compressableWriterConn} (fuel : Nat) (b : List Byte) :
      WriterReachable z c → WriterReachable z (c.Write z fuel b).1
  | header {c c1 : compressableWriterConn} (n u : Nat) (e : Option Error) :
      WriterReachable z c → c.writeHeader n u = .returned (c1, e) → WriterReachable z c1
  | conn {c : compressableWriterConn} (nc : NetConn) :
      WriterReachable z c → WriterReachable z { c with Conn := nc }

/-- The header slice is nil or 7 bytes long, and it is 7 bytes long whenever
compression is on. -/
def compressableWriterConn.headerInv (c : compressableWriterConn) : Prop :=
  (c.header = none ∨ c.headerReady) ∧ (c.compression = true → c.headerReady)

/-! ## Raw connection and header lemmas -/

theorem NetConn.Write_of_succeed (nc : NetConn) (b : List Byte) (h : nc.writesSucceed) :
    nc.Write b = ({ nc with tx := nc.tx ++ [b], txPlan := nc.txPlan.tail }, b.length, none) := by
  unfold NetConn.Write
  cases hp : nc.txPlan with
  | nil => simp
  | cons o plan =>
    have ho : o = none := h o (by simp [hp])
    subst ho
    simp

theorem NetConn.Write_tx (nc : NetConn) (b : List Byte) : (nc.Write b).1.tx = nc.tx ++ [b] := by
  unfold NetConn.Write
  split <;> rfl

theorem NetConn.Write_rx (nc : NetConn) (b : List Byte) : (nc.Write b).1.rx = nc.rx := by
  unfold NetConn.Write
  split <;> rfl

theorem NetConn.writesSucceed_Write (nc : NetConn) (b : List Byte) (h : nc.writesSucceed) :
    (nc.Write b).1.writesSucceed := by
  rw [NetConn.Write_of_succeed nc b h]
  intro o ho
  exact h o (List.mem_of_mem_tail ho)

theorem set_header (h : List Byte) (hl : h.length = 7) (n s : Nat) :
    ((((((h.set 0 (n % 256)).set 1 ((n >>> 8) % 256)).set 2 ((n >>> 16) % 256)).set 3
      (s % 256)).set 4 (n % 256)).set 5 ((n >>> 8) % 256)).set 6 ((n >>> 16) % 256)
      = headerBytes n s := by
  match h, hl with
  | [_, _, _, _, _, _, _], _ => rfl

theorem headerBytes_length (n s : Nat) : (headerBytes n s).length = 7 := rfl

/-- What `writeHeader` does once the header slice exists: it stores
`headerBytes`, bumps the counter and makes one raw write. -/
theorem compressableWriterConn.writeHeader_ready (c : compressableWriterConn) (n u : Nat)
    (hr : c.headerReady) :
    c.writeHeader n u = .returned
      ({ c with header := some (headerBytes n c.seq), seq := (c.seq + 1) % 256,
                Conn := (c.Conn.Write (headerBytes n c.seq)).1 },
        (c.Conn.Write (headerBytes n c.seq)).2.2.map Error.io) := by
  obtain ⟨h, hh, hl⟩ := hr
  unfold compressableWriterConn.writeHeader
  simp only [hh]
  rw [if_neg (by omega), set_header h hl]

theorem headerBytes_seq_mod (n s i : Nat) :
    headerBytes n ((s + 1) % 256 + i) = headerBytes n (s + (i + 1)) := by
  have h : ((s + 1) % 256 + i) % 256 = (s + (i + 1)) % 256 := by omega
  simp only [headerBytes, h]

/-- With compression on and a payload of at most 50 bytes, every level of
`Write` writes one more header and calls `Write` again: whatever the fuel, the
call is still running, and the raw writes made so far are headers only. -/
theorem compressableWriterConn.WriteN_small_trace (z : Codec) (b : List Byte)
    (hb : b.length ≤ 50) :
    ∀ (fuel : Nat) (c : compressableWriterConn) (own : Bool),
      c.compression = true → c.headerReady → c.Conn.writesSucceed →
      (compressableWriterConn.WriteN z fuel c b own).2 = .running ∧
      (compressableWriterConn.WriteN z fuel c b own).1.Conn.tx =
        c.Conn.tx ++ (List.range fuel).map (fun i => headerBytes b.length (c.seq + i)) := by
  intro fuel
  induction fuel with
  | zero => intro c own _ _ _; simp [compressableWriterConn.WriteN]
  | succ fuel ih =>
    intro c own hc hr hw
    have hwr := NetConn.Write_of_succeed c.Conn (headerBytes b.length c.seq) hw
    have hws := NetConn.writesSucceed_Write c.Conn (headerBytes b.length c.seq) hw
    have hstep : compressableWriterConn.WriteN z (fuel + 1) c b own =
        compressableWriterConn.WriteN z fuel
          { c with header := some (headerBytes b.length c.seq), seq := (c.seq + 1) % 256,
                   Conn := (c.Conn.Write (headerBytes b.length c.seq)).1 } b own := by
      rw [compressableWriterConn.WriteN, if_neg (by simp [hc]), if_pos hb,
        compressableWriterConn.writeHeader_ready c b.length 0 hr]
      simp only [hwr, Option.map_none']
    rw [hstep]
    obtain ⟨h1, h2⟩ := ih
      { c with header := some (headerBytes b.length c.seq), seq := (c.seq + 1) % 256,
               Conn := (c.Conn.Write (headerBytes b.length c.seq)).1 } own
      hc ⟨_, rfl, headerBytes_length _ _⟩ hws
    refine ⟨h1, ?_⟩
    rw [h2]
    simp only [NetConn.Write_tx, List.append_assoc, List.singleton_append]
    rw [List.range_succ_eq_map, List.map_cons, List.map_map]
    congr 2
    apply List.map_congr_left
    intro i _
    simp only [Function.comp, headerBytes_seq_mod]

theorem compressableWriterConn.writeHeader_returned (c c1 : compressableWriterConn)
    (n u : Nat) (e : Option Error) (h : c.writeHeader n u = .returned (c1, e)) :
    (∃ hd, c1.Conn.tx = c.Conn.tx ++ [hd]) ∧ c1.compression = c.compression ∧
      c1.seq = (c.seq + 1) % 256 ∧ (c.headerReady → c1.headerReady) := by
  unfold compressableWriterConn.writeHeader at h
  split at h
  · cases h
  · rename_i hd hhd
    split at h
    · cases h
    · simp only [Outcome.returned.injEq, Prod.mk.injEq] at h
      obtain ⟨h1, _⟩ := h
      subst h1
      refine ⟨⟨_, NetConn.Write_tx _ _⟩, rfl, rfl, ?_⟩
      rintro ⟨h0, hh0, hl0⟩
      rw [hhd] at hh0
      cases hh0
      exact ⟨_, rfl, by simp only [List.length_set]; exact hl0⟩

/-- `Write` only ever appends to the log of raw writes. -/
theorem compressableWriterConn.WriteN_tx_prefix (z : Codec) :
    ∀ (fuel : Nat) (c : compressableWriterConn) (b : List Byte) (own : Bool),
      c.Conn.tx <+: (compressableWriterConn.WriteN z fuel c b own).1.Conn.tx := by
  intro fuel
  induction fuel with
  | zero => intro c b own; simp [compressableWriterConn.WriteN]
  | succ fuel ih =>
    intro c b own
    rw [compressableWriterConn.WriteN]
    split
    · simp only [NetConn.Write_tx]
      exact List.prefix_append _ _
    · split
      · split
        · exact List.prefix_refl _
        · exact List.prefix_refl _
        · rename_i c1 e hw
          obtain ⟨⟨hd, ht⟩, _⟩ := compressableWriterConn.writeHeader_returned _ _ _ _ _ hw
          rw [ht]
          exact List.prefix_append _ _
        · rename_i c1 hw
          obtain ⟨⟨hd, ht⟩, _⟩ := compressableWriterConn.writeHeader_returned _ _ _ _ _ hw
          exact (ht ▸ List.prefix_append c.Conn.tx [hd]).trans (ih c1 b own)
      · split
        · exact List.prefix_refl _
        · dsimp only
          split
          · exact List.prefix_refl _
          · exact List.prefix_refl _
          · rename_i c1 e hw
            obtain ⟨⟨hd, ht⟩, _⟩ := compressableWriterConn.writeHeader_returned _ _ _ _ _ hw
            rw [ht]
            exact List.prefix_append _ _
          · rename_i res _ _ c1 hw
            obtain ⟨⟨hd, ht⟩, _⟩ := compressableWriterConn.writeHeader_returned _ _ _ _ _ hw
            have h2 := ih c1 res true
            rw [ht] at h2
            exact (List.prefix_append c.Conn.tx [hd]).trans h2

/-- With compression on, the header slice allocated and a raw stream that
accepts every write, no level of `Write` ever returns without an error, and
none panics. -/
theorem compressableWriterConn.WriteN_never_succeeds (z : Codec) :
    ∀ (fuel : Nat) (c : compressableWriterConn) (b : List Byte) (own : Bool),
      c.compression = true → c.headerReady → c.Conn.writesSucceed →
      (∀ n, (compressableWriterConn.WriteN z fuel c b own).2 ≠ .returned (n, none)) ∧
      (compressableWriterConn.WriteN z fuel c b own).2 ≠ .panicked := by
  intro fuel
  induction fuel with
  | zero => intro c b own _ _ _; simp [compressableWriterConn.WriteN]
  | succ fuel ih =>
    intro c b own hc hr hw
    rw [compressableWriterConn.WriteN, if_neg (by simp [hc])]
    by_cases hb : b.length ≤ 50
    · have hwr := NetConn.Write_of_succeed c.Conn (headerBytes b.length c.seq) hw
      have hws := NetConn.writesSucceed_Write c.Conn (headerBytes b.length c.seq) hw
      rw [if_pos hb, compressableWriterConn.writeHeader_ready c b.length 0 hr]
      simp only [hwr, Option.map_none']
      rw [hwr] at hws
      exact ih _ b own hc ⟨_, rfl, headerBytes_length _ _⟩ hws
    · rw [if_neg hb]
      split
      · simp
      · rename_i res _
        have hr0 : ({ c with compressor := res } : compressableWriterConn).headerReady := hr
        have hwr := NetConn.Write_of_succeed c.Conn (headerBytes res.length c.seq) hw
        have hws := NetConn.writesSucceed_Write c.Conn (headerBytes res.length c.seq) hw
        dsimp only
        rw [compressableWriterConn.writeHeader_ready _ res.length b.length hr0]
        simp only [hwr, Option.map_none']
        rw [hwr] at hws
        exact ih _ res true hc ⟨_, rfl, headerBytes_length _ _⟩ hws

/-- The first raw write of a `Write(b)` with `len(b) <= 50` under compression:
the header for a body of `len(b)` bytes. -/
theorem compressableWriterConn.WriteN_first_small (z : Codec) (fuel : Nat)
    (c : compressableWriterConn) (b : List Byte) (own : Bool)
    (hc : c.compression = true) (hr : c.headerReady) (hb : b.length ≤ 50) :
    ∃ rest, (compressableWriterConn.WriteN z (fuel + 1) c b own).1.Conn.tx =
      c.Conn.tx ++ headerBytes b.length c.seq :: rest := by
  rw [compressableWriterConn.WriteN, if_neg (by simp [hc]), if_pos hb,
    compressableWriterConn.writeHeader_ready c b.length 0 hr]
  cases he : (c.Conn.Write (headerBytes b.length c.seq)).2.2 with
  | some e => exact ⟨[], by simp [NetConn.Write_tx]⟩
  | none =>
    simp only [Option.map_none']
    obtain ⟨l, hl⟩ := compressableWriterConn.WriteN_tx_prefix z fuel
      { c with header := some (headerBytes b.length c.seq), seq := (c.seq + 1) % 256,
               Conn := (c.Conn.Write (headerBytes b.length c.seq)).1 } b own
    refine ⟨l, ?_⟩
    rw [← hl]
    simp [NetConn.Write_tx]

/-- The first raw write of a `Write(b)` with `len(b) > 50` under compression,
when the compressor delivers `res`: the header for a body of `len(res)` bytes. -/
theorem compressableWriterConn.WriteN_first_large (z : Codec) (fuel : Nat)
    (c : compressableWriterConn) (b res : List Byte) (own : Bool)
    (hc : c.compression = true) (hr : c.headerReady) (hb : 50 < b.length)
    (hz : (if own then z.recompress b else z.compress b) = .ok res) :
    ∃ rest, (compressableWriterConn.WriteN z (fuel + 1) c b own).1.Conn.tx =
      c.Conn.tx ++ headerBytes res.length c.seq :: rest := by
  have hr0 : ({ c with compressor := res } : compressableWriterConn).headerReady := hr
  rw [compressableWriterConn.WriteN, if_neg (by simp [hc]), if_neg (by omega), hz]
  dsimp only
  rw [compressableWriterConn.writeHeader_ready _ res.length b.length hr0]
  cases he : (c.Conn.Write (headerBytes res.length c.seq)).2.2 with
  | some e => exact ⟨[], by simp [NetConn.Write_tx]⟩
  | none =>
    simp only [Option.map_none']
    obtain ⟨l, hl⟩ := compressableWriterConn.WriteN_tx_prefix z fuel
      { c with compressor := res, header := some (headerBytes res.length c.seq),
               seq := (c.seq + 1) % 256,
               Conn := (c.Conn.Write (headerBytes res.length c.seq)).1 } res true
    refine ⟨l, ?_⟩
    rw [← hl]
    simp [NetConn.Write_tx]

theorem lengthField_headerBytes (n s : Nat) : lengthField (headerBytes n s) = n % 2 ^ 24 := by
  simp only [lengthField, headerBytes, List.getD_cons_zero, List.getD_cons_succ,
    Nat.shiftRight_eq_div_pow]
  omega

theorem seqField_headerBytes (n s : Nat) : seqField (headerBytes n s) = s % 256 := by
  simp [seqField, headerBytes]

theorem uncompressedField_headerBytes (n s : Nat) :
    uncompressedField (headerBytes n s) = n % 2 ^ 24 := by
  simp only [uncompressedField, headerBytes, List.getD_cons_zero, List.getD_cons_succ,
    Nat.shiftRight_eq_div_pow]
  omega

/-! ## Reader lemmas -/

theorem buffer.readNext_append (nc : NetConn) (data rest : List Byte)
    (h : nc.rx = data ++ rest) :
    buffer.readNext nc data.length = ({ nc with rx := rest }, .ok data) := by
  unfold buffer.readNext
  rw [if_pos (by simp [h])]
  simp [h]

theorem compressableReaderConn.readCompressedHeader_ok (c : compressableReaderConn)
    (hdr rest : List Byte) (hl : hdr.length = 7) (hrx : c.Conn.rx = hdr ++ rest) :
    c.readCompressedHeader =
      ({ c with Conn := { c.Conn with rx := rest } }, parsedLength hdr, seqField hdr, none) := by
  unfold compressableReaderConn.readCompressedHeader
  have := buffer.readNext_append c.Conn hdr rest hrx
  rw [hl] at this
  rw [this]
  rfl

/-- A `Read` that finds a remainder serves the caller from it. -/
theorem compressableReaderConn.ReadN_remainder (z : Codec) (fuel : Nat)
    (c : compressableReaderConn) (cap : Nat) (r : ReadCloser)
    (hc : c.compression = true) (hrem : c.remainder = some r) :
    compressableReaderConn.ReadN z (fuel + 1) c cap =
      if (r.Read cap).2.2 = some StreamError.EOF then
        ({ c with remainder := none }, .returned ⟨(r.Read cap).2.1, none⟩)
      else
        ({ c with remainder := some (r.Read cap).1 },
          .returned ⟨(r.Read cap).2.1, (r.Read cap).2.2.map Error.io⟩) := by
  rw [compressableReaderConn.ReadN, if_neg (by simp [hc])]
  simp only [hrem]

/-- A `Read` without remainder whose header carries an unexpected sequence id. -/
theorem compressableReaderConn.ReadN_reject (z : Codec) (fuel : Nat)
    (c : compressableReaderConn) (cap : Nat) (hdr rest : List Byte)
    (hc : c.compression = true) (hrem : c.remainder = none)
    (hl : hdr.length = 7) (hrx : c.Conn.rx = hdr ++ rest)
    (hs : seqField hdr ≠ (c.seq + 1) % 256) :
    compressableReaderConn.ReadN z (fuel + 1) c cap =
      ({ c with Conn := { c.Conn with rx := rest } },
        .returned ⟨[], some (.wrongSeq (seqField hdr) ((c.seq + 1) % 256))⟩) := by
  rw [compressableReaderConn.ReadN, if_neg (by simp [hc])]
  simp only [hrem, compressableReaderConn.readCompressedHeader_ok c hdr rest hl hrx]
  rw [if_pos hs]

/-- A `Read` without remainder whose header carries the expected sequence id:
the counter moves on and the body is fetched and handed to zlib. -/
theorem compressableReaderConn.ReadN_accept (z : Codec) (fuel : Nat)
    (c : compressableReaderConn) (cap : Nat) (hdr rest : List Byte)
    (hc : c.compression = true) (hrem : c.remainder = none)
    (hl : hdr.length = 7) (hrx : c.Conn.rx = hdr ++ rest)
    (hs : seqField hdr = (c.seq + 1) % 256) :
    compressableReaderConn.ReadN z (fuel + 1) c cap =
      match buffer.readNext { c.Conn with rx := rest } (parsedLength hdr) with
      | (nc, .error e) =>
        ({ c with seq := (c.seq + 1) % 256, Conn := nc }, .returned ⟨[], some (.io e)⟩)
      | (nc, .ok compressed) =>
        match z.NewReader compressed with
        | .error e =>
          ({ c with seq := (c.seq + 1) % 256, Conn := nc, remainder := none },
            .returned ⟨[], some (.io e)⟩)
        | .ok r =>
          compressableReaderConn.ReadN z fuel
            { c with seq := (c.seq + 1) % 256, Conn := nc, remainder := some r } cap := by
  rw [compressableReaderConn.ReadN, if_neg (by simp [hc])]
  simp only [hrem, compressableReaderConn.readCompressedHeader_ok c hdr rest hl hrx]
  rw [if_neg (by simp [hs])]

theorem compressableReaderConn.readCompressedHeader_fst (c : compressableReaderConn) :
    c.readCompressedHeader.1 = { c with Conn := (buffer.readNext c.Conn 7).1 } := by
  unfold compressableReaderConn.readCompressedHeader
  split <;> rename_i h <;> rw [h]

/-- Fuel beyond two levels changes nothing: `Read` is a total function. -/
theorem compressableReaderConn.ReadN_fuel (z : Codec) (k : Nat) (c : compressableReaderConn)
    (cap : Nat) :
    compressableReaderConn.ReadN z (k + 2) c cap = compressableReaderConn.ReadN z 2 c cap := by
  have key : ∀ (c1 : compressableReaderConn) (r : ReadCloser), c1.compression = true →
      c1.remainder = some r →
      compressableReaderConn.ReadN z (k + 1) c1 cap = compressableReaderConn.ReadN z 1 c1 cap := by
    intro c1 r h1 h2
    rw [compressableReaderConn.ReadN_remainder z k c1 cap r h1 h2,
      compressableReaderConn.ReadN_remainder z 0 c1 cap r h1 h2]
  show compressableReaderConn.ReadN z (k + 1 + 1) c cap =
    compressableReaderConn.ReadN z (1 + 1) c cap
  rw [compressableReaderConn.ReadN]
  conv_rhs => rw [compressableReaderConn.ReadN]
  split
  · rfl
  · rename_i hc
    split
    · rfl
    · split
      · rfl
      · split
        · rfl
        · dsimp only
          split
          · rfl
          · split
            · rfl
            · have hh := ‹c.readCompressedHeader = _›
              have h1 := compressableReaderConn.readCompressedHeader_fst c
              rw [hh] at h1
              simp only at h1
              refine key _ _ ?_ rfl
              show _ = true
              rw [h1]
              simpa using hc

/-- `Read` always returns: it neither runs out of fuel nor panics. -/
theorem compressableReaderConn.Read_returns (z : Codec) (c : compressableReaderConn)
    (cap : Nat) : ∃ r, (c.Read z cap).2 = .returned r := by
  unfold compressableReaderConn.Read
  show ∃ r, (compressableReaderConn.ReadN z (1 + 1) c cap).2 = .returned r
  rw [compressableReaderConn.ReadN]
  split
  · exact ⟨_, rfl⟩
  · rename_i hc
    split
    · split
      · split <;> exact ⟨_, rfl⟩
    · split
      · exact ⟨_, rfl⟩
      · split
        · exact ⟨_, rfl⟩
        · dsimp only
          split
          · exact ⟨_, rfl⟩
          · split
            · exact ⟨_, rfl⟩
            · have hh := ‹c.readCompressedHeader = _›
              have h1 := compressableReaderConn.readCompressedHeader_fst c
              rw [hh] at h1
              simp only at h1
              rw [compressableReaderConn.ReadN_remainder z 0 _ cap _ (by
                show _ = true
                rw [h1]
                simpa using hc) rfl]
              split <;> exact ⟨_, rfl⟩

/-- Under compression the first thing any `Write` puts on the raw stream, if
it puts anything, is a header carrying the current sequence counter. -/
theorem compressableWriterConn.WriteN_wire_head (z : Codec) (fuel : Nat)
    (c : compressableWriterConn) (b : List Byte) (own : Bool)
    (hc : c.compression = true) (hr : c.headerReady) :
    rawWrites c (compressableWriterConn.WriteN z fuel c b own).1 = [] ∨
    ∃ n rest, rawWrites c (compressableWriterConn.WriteN z fuel c b own).1 =
      headerBytes n c.seq :: rest := by
  cases fuel with
  | zero => left; simp [rawWrites, compressableWriterConn.WriteN]
  | succ fuel =>
    by_cases hb : b.length ≤ 50
    · obtain ⟨rest, h⟩ := compressableWriterConn.WriteN_first_small z fuel c b own hc hr hb
      right
      exact ⟨b.length, rest, by simp [rawWrites, h]⟩
    · cases hz : (if own then z.recompress b else z.compress b) with
      | error e =>
        left
        rw [compressableWriterConn.WriteN, if_neg (by simp [hc]), if_neg hb, hz]
        simp [rawWrites]
      | ok res =>
        obtain ⟨rest, h⟩ := compressableWriterConn.WriteN_first_large z fuel c b res own hc hr
          (by omega) hz
        right
        exact ⟨res.length, rest, by simp [rawWrites, h]⟩

/-- The raw writes of a run of `writeHeader` calls: one 7-byte header per call,
with consecutive sequence bytes. -/
theorem writeHeaders_trace :
    ∀ (args : List (Nat × Nat)) (c : compressableWriterConn), c.headerReady → c.seq < 256 →
      ∃ l, (writeHeaders c args).Conn.tx = c.Conn.tx ++ l ∧ l.length = args.length ∧
        (∀ i hd, l[i]? = some hd → hd.length = 7 ∧ seqField hd = (c.seq + i) % 256) ∧
        (writeHeaders c args).seq = (c.seq + args.length) % 256 := by
  intro args
  induction args with
  | nil =>
    intro c _ hs
    exact ⟨[], by simp [writeHeaders], rfl, by simp, by simp [writeHeaders]; omega⟩
  | cons a args ih =>
    intro c hr hs
    obtain ⟨n, u⟩ := a
    rw [writeHeaders, compressableWriterConn.writeHeader_ready c n u hr]
    obtain ⟨l, h1, h2, h3, h4⟩ := ih
      { c with header := some (headerBytes n c.seq), seq := (c.seq + 1) % 256,
               Conn := (c.Conn.Write (headerBytes n c.seq)).1 }
      ⟨_, rfl, headerBytes_length _ _⟩ (Nat.mod_lt _ (by decide))
    refine ⟨headerBytes n c.seq :: l, ?_, by simp [h2], ?_, ?_⟩
    · simp only [h1, NetConn.Write_tx, List.append_assoc, List.singleton_append]
    · intro i hd hi
      cases i with
      | zero =>
        simp only [List.getElem?_cons_zero, Option.some.injEq] at hi
        subst hi
        exact ⟨rfl, by rw [seqField_headerBytes]; rfl⟩
      | succ i =>
        simp only [List.getElem?_cons_succ] at hi
        obtain ⟨g1, g2⟩ := h3 i hd hi
        refine ⟨g1, ?_⟩
        rw [g2]
        simp only
        omega
    · simp only [h4, List.length_cons]
      omega

/-- A `Read` served from the remainder never ends in the sequence error. -/
theorem compressableReaderConn.remainder_no_seqError (z : Codec) (fuel : Nat)
    (c : compressableReaderConn) (cap : Nat) (r : ReadCloser)
    (hc : c.compression = true) (hrem : c.remainder = some r) :
    ¬ isSeqError (compressableReaderConn.ReadN z (fuel + 1) c cap).2 := by
  rw [compressableReaderConn.ReadN_remainder z fuel c cap r hc hrem]
  rintro ⟨r0, g, e, h1, h2⟩
  split at h1
  · cases h1
    cases h2
  · cases h1
    revert h2
    cases (r.Read cap).2.2 <;> simp

/-- A frame whose header carries the expected sequence id never ends in the
sequence error. -/
theorem compressableReaderConn.accept_no_seqError (z : Codec) (c : compressableReaderConn)
    (cap : Nat) (hdr rest : List Byte) (hc : c.compression = true) (hrem : c.remainder = none)
    (hl : hdr.length = 7) (hrx : c.Conn.rx = hdr ++ rest)
    (hs : seqField hdr = (c.seq + 1) % 256) : ¬ isSeqError (c.Read z cap).2 := by
  rw [compressableReaderConn.Read,
    compressableReaderConn.ReadN_accept z 1 c cap hdr rest hc hrem hl hrx hs]
  rintro ⟨r, g, e, h1, h2⟩
  split at h1
  · cases h1
    cases h2
  · split at h1
    · cases h1
      cases h2
    · have hse : isSeqError (compressableReaderConn.ReadN z (0 + 1) _ cap).2 :=
        ⟨r, g, e, h1, h2⟩
      refine (compressableReaderConn.remainder_no_seqError z 0 _ cap ?_ ?_ ?_) hse
      case refine_3 => exact rfl
      exact hc

/-- One read of the zlib reader: the bytes returned and the bytes still pending
make up what was pending before; at most `cap` bytes are returned; an error is
the final error and comes when no chunk is left. -/
theorem ReadCloser.Read_spec (r : ReadCloser) (cap : Nat) :
    (r.Read cap).2.1 ++ (r.Read cap).1.pending = r.pending ∧
    (r.Read cap).2.1.length ≤ cap ∧
    (r.Read cap).1.final = r.final ∧
    (∀ e, (r.Read cap).2.2 = some e → e = r.final ∧ (r.Read cap).1.chunks = []) := by
  unfold ReadCloser.Read ReadCloser.pending
  split
  · rename_i h
    simp [h]
  · rename_i ch rest h
    split
    · rename_i hd
      have hlen : ch.length ≤ cap := by simpa using hd
      split
      · simp [h, hlen]
      · simp [h, hlen]
    · simp [h, List.length_take, Nat.min_le_left, ← List.append_assoc]

/-- A `Read` that finds a remainder, in terms of `Read` itself. -/
theorem compressableReaderConn.Read_remainder (z : Codec) (c : compressableReaderConn)
    (cap : Nat) (r : ReadCloser) (hc : c.compression = true) (hrem : c.remainder = some r) :
    c.Read z cap =
      if (r.Read cap).2.2 = some StreamError.EOF then
        ({ c with remainder := none }, .returned ⟨(r.Read cap).2.1, none⟩)
      else
        ({ c with remainder := some (r.Read cap).1 },
          .returned ⟨(r.Read cap).2.1, (r.Read cap).2.2.map Error.io⟩) :=
  compressableReaderConn.ReadN_remainder z 1 c cap r hc hrem

theorem drainRemainder_none (z : Codec) (c : compressableReaderConn) (caps : List Nat)
    (h : c.remainder = none) : drainRemainder z c caps = (c, []) := by
  cases caps <;> simp [drainRemainder, h]

theorem drainRemainder_cons (z : Codec) (c : compressableReaderConn) (cap : Nat)
    (caps : List Nat) (r : ReadCloser) (hc : c.compression = true)
    (hrem : c.remainder = some r) :
    drainRemainder z c (cap :: caps) =
      ((drainRemainder z (c.Read z cap).1 caps).1,
        (r.Read cap).2.1 ++ (drainRemainder z (c.Read z cap).1 caps).2) := by
  rw [drainRemainder]
  simp only [hrem]
  rw [compressableReaderConn.Read_remainder z c cap r hc hrem]
  by_cases hE : (r.Read cap).2.2 = some StreamError.EOF
  · rw [if_pos hE]
  · rw [if_neg hE]

/-- Successive reads while a remainder is pending hand out its bytes in order
and touch neither the connection nor the counter: what has been returned and
what the remainder still holds make up the frame's data. -/
theorem drainRemainder_spec (z : Codec) :
    ∀ (caps : List Nat) (c : compressableReaderConn) (r : ReadCloser),
      c.compression = true → c.remainder = some r →
      (drainRemainder z c caps).2 ++ remainderBytes (drainRemainder z c caps).1.remainder
        = r.pending ∧
      (drainRemainder z c caps).1.Conn = c.Conn ∧
      (drainRemainder z c caps).1.seq = c.seq := by
  intro caps
  induction caps with
  | nil => intro c r _ hrem; simp [drainRemainder, hrem, remainderBytes]
  | cons cap caps ih =>
    intro c r hc hrem
    obtain ⟨hsplit, _, _, herr⟩ := ReadCloser.Read_spec r cap
    rw [drainRemainder_cons z c cap caps r hc hrem,
      compressableReaderConn.Read_remainder z c cap r hc hrem]
    by_cases hE : (r.Read cap).2.2 = some StreamError.EOF
    · rw [if_pos hE]
      dsimp only
      rw [drainRemainder_none z _ caps rfl]
      refine ⟨?_, rfl, rfl⟩
      have hch := (herr _ hE).2
      have hp : (r.Read cap).1.pending = [] := by simp [ReadCloser.pending, hch]
      rw [hp, List.append_nil] at hsplit
      simp [remainderBytes, hsplit]
    · rw [if_neg hE]
      dsimp only
      obtain ⟨h1, h2, h3⟩ := ih { c with remainder := some (r.Read cap).1 } (r.Read cap).1 hc rfl
      refine ⟨?_, h2, h3⟩
      rw [List.append_assoc, h1, hsplit]

theorem chunkReads_pos (cap : Nat) (ch : List Byte) : 1 ≤ chunkReads cap ch := by
  unfold chunkReads
  exact Nat.le_max_left _ _

theorem chunkReads_drop (cap : Nat) (ch : List Byte) (hcap : 0 < cap) (h : cap < ch.length) :
    chunkReads cap (ch.drop cap) + 1 = chunkReads cap ch := by
  unfold chunkReads
  rw [List.length_drop]
  have e1 : ch.length + cap - 1 = (ch.length - cap + cap - 1) + cap := by omega
  have e2 : 1 ≤ (ch.length - cap + cap - 1) / cap := by
    rw [Nat.le_div_iff_mul_le hcap]
    omega
  rw [e1, Nat.add_div_right _ hcap]
  omega

/-- With buffers of `cap > 0` bytes, `readsNeeded` reads reach the end of a
well-formed stream: the remainder is then cleared. -/
theorem drainRemainder_complete (z : Codec) (cap : Nat) (hcap : 0 < cap) :
    ∀ (k : Nat) (c : compressableReaderConn) (r : ReadCloser),
      c.compression = true → c.remainder = some r → r.final = .EOF →
      readsNeeded cap r.chunks ≤ k →
      (drainRemainder z c (List.replicate k cap)).1.remainder = none := by
  intro k
  induction k with
  | zero =>
    intro c r _ _ _ hk
    exfalso
    unfold readsNeeded at hk
    split at hk
    · omega
    · rename_i hne
      cases hch : r.chunks with
      | nil => exact hne hch
      | cons ch rest =>
        rw [hch] at hk
        have := chunkReads_pos cap ch
        simp only [List.map_cons, List.sum_cons] at hk
        omega
  | succ k ih =>
    intro c r hc hrem hf hk
    rw [List.replicate_succ, drainRemainder_cons z c cap _ r hc hrem,
      compressableReaderConn.Read_remainder z c cap r hc hrem]
    dsimp only
    cases hch : r.chunks with
    | nil =>
      have hr : (r.Read cap).2.2 = some StreamError.EOF := by
        simp [ReadCloser.Read, hch, hf]
      rw [if_pos hr, drainRemainder_none z _ _ rfl]
    | cons ch rest =>
      by_cases hd : ch.drop cap = []
      · cases hrest : rest with
        | nil =>
          have hr : (r.Read cap).2.2 = some StreamError.EOF := by
            simp [ReadCloser.Read, hch, hd, hrest, hf]
          rw [if_pos hr, drainRemainder_none z _ _ rfl]
        | cons ch2 rest2 =>
          have hr : r.Read cap = ({ r with chunks := ch2 :: rest2 }, ch, none) := by
            simp [ReadCloser.Read, hch, hd, hrest]
          rw [hr, if_neg (by simp)]
          refine ih _ { r with chunks := ch2 :: rest2 } hc rfl hf ?_
          have h1 := chunkReads_pos cap ch
          simp only [readsNeeded, hch, hrest, List.map_cons, List.sum_cons, reduceCtorEq,
            if_false] at hk ⊢
          omega
      · have hr : r.Read cap = ({ r with chunks := ch.drop cap :: rest }, ch.take cap, none) := by
          simp [ReadCloser.Read, hch, hd]
        rw [hr, if_neg (by simp)]
        refine ih _ { r with chunks := ch.drop cap :: rest } hc rfl hf ?_
        have hlt : cap < ch.length := by
          by_contra hge
          exact hd (List.drop_eq_nil_of_le (by omega))
        have h1 := chunkReads_drop cap ch hcap hlt
        simp only [readsNeeded, hch, List.map_cons, List.sum_cons, reduceCtorEq,
          if_false] at hk ⊢
        omega

theorem or_shift_eq_add (d0 d1 d2 : Nat) (h0 : d0 < 256) (h1 : d1 < 256) :
    d0 ||| (d1 <<< 8) ||| (d2 <<< 16) = d0 + 256 * d1 + 65536 * d2 := by
  have e1 : d0 ||| (d1 <<< 8) = 2 ^ 8 * d1 + d0 := by
    rw [Nat.shiftLeft_eq, Nat.lor_comm, Nat.mul_comm, ← Nat.mul_add_lt_is_or (by omega)]
  have e2 : (2 ^ 8 * d1 + d0) ||| (d2 <<< 16) = 2 ^ 16 * d2 + (2 ^ 8 * d1 + d0) := by
    rw [Nat.shiftLeft_eq, Nat.lor_comm, Nat.mul_comm, ← Nat.mul_add_lt_is_or (by omega)]
  rw [e1, e2]
  omega

theorem getD_lt_of_bytes (l : List Nat) (h : ∀ x ∈ l, x < 256) (i : Nat) :
    l.getD i (0 : Nat) < 256 := by
  induction l generalizing i with
  | nil => simp
  | cons a l ih =>
    cases i with
    | zero => simpa using h a (by simp)
    | succ i =>
      simp only [List.getD_cons_succ]
      exact ih (fun x hx => h x (by simp [hx])) i

/-- On bytes the shifts and ors of `readCompressedHeader` are the little-endian
value of the first three bytes. -/
theorem parsedLength_bytes (hdr : List Byte) (h : ∀ x ∈ hdr, x < 256) :
    parsedLength hdr = lengthField hdr ∧ parsedLength hdr < 2 ^ 24 := by
  have h0 := getD_lt_of_bytes hdr h 0
  have h1 := getD_lt_of_bytes hdr h 1
  have h2 := getD_lt_of_bytes hdr h 2
  have e : parsedLength hdr = lengthField hdr := by
    rw [parsedLength, lengthField, or_shift_eq_add _ _ _ h0 h1]
  refine ⟨e, ?_⟩
  rw [e, lengthField]
  omega

theorem headerBytes_bytes (n s : Nat) : ∀ x ∈ headerBytes n s, x < 256 := by
  intro x hx
  simp only [headerBytes, List.mem_cons, List.mem_singleton, List.not_mem_nil, or_false] at hx
  rcases hx with h | h | h | h | h | h | h <;> subst h <;> exact Nat.mod_lt _ (by decide)

/-- A whole frame with the expected sequence id whose body zlib rejects. -/
theorem compressableReaderConn.Read_frame_error (z : Codec) (c : compressableReaderConn)
    (cap : Nat) (hdr body rest : List Byte) (e : StreamError)
    (hc : c.compression = true) (hrem : c.remainder = none)
    (hl : hdr.length = 7) (hrx : c.Conn.rx = hdr ++ (body ++ rest))
    (hlen : parsedLength hdr = body.length) (hs : seqField hdr = (c.seq + 1) % 256)
    (hz : z.NewReader body = .error e) :
    c.Read z cap =
      ({ c with seq := (c.seq + 1) % 256, Conn := { c.Conn with rx := rest },
                remainder := none },
        .returned ⟨[], some (.io e)⟩) := by
  have hb := buffer.readNext_append { c.Conn with rx := body ++ rest } body rest rfl
  rw [← hlen] at hb
  rw [compressableReaderConn.Read,
    compressableReaderConn.ReadN_accept z 1 c cap hdr (body ++ rest) hc hrem hl hrx hs, hb]
  simp only [hz]

/-- A whole frame with the expected sequence id whose body zlib accepts as a
well-formed stream: the call returns, without error, the bytes that the first
read of zlib's reader hands out. -/
theorem compressableReaderConn.Read_frame_ok (z : Codec) (c : compressableReaderConn)
    (cap : Nat) (hdr body rest : List Byte) (r : ReadCloser)
    (hc : c.compression = true) (hrem : c.remainder = none)
    (hl : hdr.length = 7) (hrx : c.Conn.rx = hdr ++ (body ++ rest))
    (hlen : parsedLength hdr = body.length) (hs : seqField hdr = (c.seq + 1) % 256)
    (hz : z.NewReader body = .ok r) (hf : r.final = .EOF) :
    (c.Read z cap).2 = .returned ⟨(r.Read cap).2.1, none⟩ := by
  have hb := buffer.readNext_append { c.Conn with rx := body ++ rest } body rest rfl
  rw [← hlen] at hb
  rw [compressableReaderConn.Read,
    compressableReaderConn.ReadN_accept z 1 c cap hdr (body ++ rest) hc hrem hl hrx hs, hb]
  simp only [hz]
  rw [compressableReaderConn.ReadN_remainder z 0
    { c with seq := (c.seq + 1) % 256, Conn := { c.Conn with rx := rest },
             remainder := some r } cap r hc rfl]
  have herr := (ReadCloser.Read_spec r cap).2.2.2
  cases he : (r.Read cap).2.2 with
  | none => simp
  | some e =>
    have := (herr e he).1
    rw [hf] at this
    subst this
    simp

/-- Whatever becomes of the body, a `Read` that accepted a header has moved the
counter on to the header's sequence id and keeps compression on. -/
theorem compressableReaderConn.Read_accept_state (z : Codec) (c : compressableReaderConn)
    (cap : Nat) (hdr rest : List Byte) (hc : c.compression = true) (hrem : c.remainder = none)
    (hl : hdr.length = 7) (hrx : c.Conn.rx = hdr ++ rest)
    (hs : seqField hdr = (c.seq + 1) % 256) :
    (c.Read z cap).1.seq = (c.seq + 1) % 256 ∧ (c.Read z cap).1.compression = true := by
  rw [compressableReaderConn.Read,
    compressableReaderConn.ReadN_accept z 1 c cap hdr rest hc hrem hl hrx hs]
  split
  · exact ⟨rfl, hc⟩
  · split
    · exact ⟨rfl, hc⟩
    · rw [compressableReaderConn.ReadN_remainder z 0 _ cap ?r ?h1 ?h2]
      case h2 => exact rfl
      case h1 => exact hc
      split <;> exact ⟨rfl, hc⟩

/-- Draining keeps the sequence counter, with or without a remainder. -/
theorem drainRemainder_seq (z : Codec) (c : compressableReaderConn) (caps : List Nat)
    (hc : c.compression = true) : (drainRemainder z c caps).1.seq = c.seq := by
  cases hrem : c.remainder with
  | none => cases caps <;> simp [drainRemainder, hrem]
  | some r => exact (drainRemainder_spec z caps c r hc hrem).2.2

theorem NetConn.Write_of_fail (nc : NetConn) (b : List Byte) (e : StreamError)
    (h : nc.txPlan.head? = some (some e)) :
    nc.Write b = ({ nc with tx := nc.tx ++ [b], txPlan := nc.txPlan.tail }, 0, some e) := by
  unfold NetConn.Write
  cases hp : nc.txPlan with
  | nil => simp [hp] at h
  | cons o plan =>
    simp only [hp, List.head?_cons, Option.some.injEq] at h
    subst h
    simp

theorem compressableWriterConn.headerInv_writeHeader (c c1 : compressableWriterConn)
    (n u : Nat) (e : Option Error) (hi : c.headerInv)
    (h : c.writeHeader n u = .returned (c1, e)) : c1.headerInv := by
  obtain ⟨_, hcomp, _, hready⟩ := compressableWriterConn.writeHeader_returned c c1 n u e h
  have hr : c.headerReady := by
    rcases hi.1 with hn | hr
    · rw [compressableWriterConn.writeHeader, hn] at h
      cases h
    · exact hr
  exact ⟨Or.inr (hready hr), fun _ => hready hr⟩

theorem compressableWriterConn.headerInv_WriteN (z : Codec) :
    ∀ (fuel : Nat) (c : compressableWriterConn) (b : List Byte) (own : Bool),
      c.headerInv → (compressableWriterConn.WriteN z fuel c b own).1.headerInv := by
  intro fuel
  induction fuel with
  | zero => intro c b own hi; exact hi
  | succ fuel ih =>
    intro c b own hi
    rw [compressableWriterConn.WriteN]
    split
    · exact hi
    · split
      · split
        · exact hi
        · exact hi
        · rename_i c1 e hw
          exact compressableWriterConn.headerInv_writeHeader _ _ _ _ _ hi hw
        · rename_i c1 hw
          exact ih c1 b own (compressableWriterConn.headerInv_writeHeader _ _ _ _ _ hi hw)
      · split
        · exact hi
        · dsimp only
          split
          · exact hi
          · exact hi
          · rename_i c1 e hw
            refine compressableWriterConn.headerInv_writeHeader _ _ _ _ _ ?_ hw
            exact hi
          · rename_i res _ _ c1 hw
            refine ih c1 res true (compressableWriterConn.headerInv_writeHeader _ _ _ _ _ ?_ hw)
            exact hi

theorem compressableWriterConn.headerInv_activate (c : compressableWriterConn)
    (hi : c.headerInv) : c.activateCompression.1.headerInv := by
  have hr : c.activateCompression.1.headerReady := by
    rcases hi.1 with hn | ⟨h, hh, hl⟩
    · exact ⟨List.replicate 7 0, by simp [compressableWriterConn.activateCompression, hn], rfl⟩
    · exact ⟨h, by simp [compressableWriterConn.activateCompression, hh], hl⟩
  exact ⟨Or.inr hr, fun _ => hr⟩

theorem WriterReachable.headerInv {z : Codec} {c : compressableWriterConn}
    (h : WriterReachable z c) : c.headerInv := by
  induction h with
  | zero nc => exact ⟨Or.inl rfl, fun h => by simp [newWriter] at h⟩
  | activate _ ih => exact compressableWriterConn.headerInv_activate _ ih
  | write fuel b _ ih => exact compressableWriterConn.headerInv_WriteN z fuel _ b false ih
  | header n u e _ hw ih => exact compressableWriterConn.headerInv_writeHeader _ _ n u e ih hw
  | conn nc _ ih => exact ih

/-- The counter after `fuel` levels of a `Write` of a small payload. -/
theorem compressableWriterConn.WriteN_small_seq (z : Codec) (b : List Byte)
    (hb : b.length ≤ 50) :
    ∀ (fuel : Nat) (c : compressableWriterConn) (own : Bool),
      c.compression = true → c.headerReady → c.Conn.writesSucceed → c.seq < 256 →
      (compressableWriterConn.WriteN z fuel c b own).1.seq = (c.seq + fuel) % 256 := by
  intro fuel
  induction fuel with
  | zero =>
    intro c own _ _ _ hs
    simp only [compressableWriterConn.WriteN, Nat.add_zero]
    omega
  | succ fuel ih =>
    intro c own hc hr hw hs
    have hwr := NetConn.Write_of_succeed c.Conn (headerBytes b.length c.seq) hw
    have hws := NetConn.writesSucceed_Write c.Conn (headerBytes b.length c.seq) hw
    have hstep : compressableWriterConn.WriteN z (fuel + 1) c b own =
        compressableWriterConn.WriteN z fuel
          { c with header := some (headerBytes b.length c.seq), seq := (c.seq + 1) % 256,
                   Conn := (c.Conn.Write (headerBytes b.length c.seq)).1 } b own := by
      rw [compressableWriterConn.WriteN, if_neg (by simp [hc]), if_pos hb,
        compressableWriterConn.writeHeader_ready c b.length 0 hr]
      simp only [hwr, Option.map_none']
    rw [hstep, ih
      { c with header := some (headerBytes b.length c.seq), seq := (c.seq + 1) % 256,
               Conn := (c.Conn.Write (headerBytes b.length c.seq)).1 } own
      hc ⟨_, rfl, headerBytes_length _ _⟩ hws (Nat.mod_lt _ (by decide))]
    simp only
    omega

/-- Under compression every raw write that `Write` makes is a frame header:
at no depth is the payload, or its zlib output, handed to the raw stream. -/
theorem compressableWriterConn.WriteN_only_headers (z : Codec) :
    ∀ (fuel : Nat) (c : compressableWriterConn) (b : List Byte) (own : Bool),
      c.compression = true → c.headerReady →
      ∀ w ∈ rawWrites c (compressableWriterConn.WriteN z fuel c b own).1,
        ∃ n s, w = headerBytes n s := by
  intro fuel
  induction fuel with
  | zero => intro c b own _ _ w hw; simp [rawWrites, compressableWriterConn.WriteN] at hw
  | succ fuel ih =>
    intro c b own hc hr w hw
    have key : ∀ (n : Nat) (c0 : compressableWriterConn) (b1 : List Byte) (own1 : Bool),
        c0.Conn = c.Conn → c0.seq = c.seq → c0.compression = true → c0.headerReady →
        w ∈ rawWrites c
          (match c0.writeHeader n b.length with
            | .panicked => (c0, Outcome.panicked)
            | .running => (c0, Outcome.running)
            | .returned (c1, some e) => (c1, Outcome.returned (0, some e))
            | .returned (c1, none) => compressableWriterConn.WriteN z fuel c1 b1 own1).1 →
        ∃ n s, w = headerBytes n s := by
      intro n c0 b1 own1 hconn hseq hc0 hr0 hmem
      rw [compressableWriterConn.writeHeader_ready c0 n b.length hr0] at hmem
      cases he : (c0.Conn.Write (headerBytes n c0.seq)).2.2 with
      | some e =>
        simp only [he, Option.map_some'] at hmem
        simp only [rawWrites, NetConn.Write_tx, hconn, List.drop_left, List.mem_singleton]
          at hmem
        exact ⟨n, c0.seq, hmem⟩
      | none =>
        simp only [he, Option.map_none'] at hmem
        obtain ⟨c1, hc1⟩ : ∃ c1 : compressableWriterConn, c1 =
            { c0 with header := some (headerBytes n c0.seq), seq := (c0.seq + 1) % 256,
                      Conn := (c0.Conn.Write (headerBytes n c0.seq)).1 } := ⟨_, rfl⟩
        rw [← hc1] at hmem
        have e1 : c1.Conn.tx = c.Conn.tx ++ [headerBytes n c0.seq] := by
          rw [hc1]
          show (c0.Conn.Write _).1.tx = _
          rw [NetConn.Write_tx, hconn]
        obtain ⟨l, hl⟩ := compressableWriterConn.WriteN_tx_prefix z fuel c1 b1 own1
        have e2 : rawWrites c1 (compressableWriterConn.WriteN z fuel c1 b1 own1).1 = l := by
          rw [rawWrites, ← hl, List.drop_left]
        have e3 : rawWrites c (compressableWriterConn.WriteN z fuel c1 b1 own1).1 =
            headerBytes n c0.seq :: l := by
          rw [rawWrites, ← hl, e1, List.append_assoc, List.drop_left]
          rfl
        have hrec := ih c1 b1 own1 (by rw [hc1]; exact hc0)
          (by rw [hc1]; exact ⟨_, rfl, headerBytes_length _ _⟩)
        rw [e2] at hrec
        rw [e3, List.mem_cons] at hmem
        rcases hmem with h | h
        · exact ⟨n, c0.seq, h⟩
        · exact hrec w h
    rw [compressableWriterConn.WriteN, if_neg (by simp [hc])] at hw
    by_cases hb : b.length ≤ 50
    · rw [if_pos hb] at hw
      have := compressableWriterConn.writeHeader_ready c b.length 0 hr
      rw [this] at hw
      have h2 := key b.length c b own rfl rfl hc hr
      rw [compressableWriterConn.writeHeader_ready c b.length b.length hr] at h2
      exact h2 hw
    · rw [if_neg hb] at hw
      split at hw
      · simp [rawWrites] at hw
      · rename_i res _
        exact key res.length { c with compressor := res } res true rfl rfl hc hr hw

/-! ## The claims -/

/-- Claim C2, as the code behaves: with compression on and a raw stream that
accepts every write, `Write(b)` does not finish after a header and a body.  For
every buffer and every bound on the nested calls it has not returned
successfully; for `len(b) <= 50` it is still running at every bound `fuel`,
having made `fuel` raw writes by then, each of them a 7-byte header. -/
theorem Write_never_completes (z : Codec) (c : compressableWriterConn) (b : List Byte)
    (fuel : Nat) (hc : c.compression = true) (hr : c.headerReady)
    (hw : c.Conn.writesSucceed) :
    (∀ n, (c.Write z fuel b).2 ≠ .returned (n, none)) ∧
    (b.length ≤ 50 →
      (c.Write z fuel b).2 = .running ∧
      (rawWrites c (c.Write z fuel b).1).length = fuel ∧
      ∀ w ∈ rawWrites c (c.Write z fuel b).1, w.length = 7) := by
  refine ⟨(compressableWriterConn.WriteN_never_succeeds z fuel c b false hc hr hw).1, ?_⟩
  intro hb
  obtain ⟨h1, h2⟩ := compressableWriterConn.WriteN_small_trace z b hb fuel c false hc hr hw
  refine ⟨h1, ?_, ?_⟩
  · simp [rawWrites, compressableWriterConn.Write, h2]
  · intro w hmem
    simp only [rawWrites, compressableWriterConn.Write, h2, List.drop_left, List.mem_map] at hmem
    obtain ⟨i, _, rfl⟩ := hmem
    rfl

theorem Write_never_completes_witness :
    ((newWriter (freshConn [])).activateCompression.1.Write plainCodec 3 [97, 97, 97]).2
        = .running ∧
      (rawWrites (newWriter (freshConn [])).activateCompression.1
        ((newWriter (freshConn [])).activateCompression.1.Write plainCodec 3
          [97, 97, 97]).1).length = 3 :=
  have h := (Write_never_completes plainCodec (newWriter (freshConn [])).activateCompression.1
    [97, 97, 97] 3 rfl ⟨_, rfl, rfl⟩ (by decide)).2 (by decide)
  ⟨h.1, h.2.1⟩

/-- Claim C3, as the code behaves: for `len(b) <= 50` the first raw write of
`Write(b)` is a 7-byte header whose length field is `len(b)` and whose sequence
byte is the counter before the call, but whose uncompressed-length field
(bytes 4..6) is `len(b)` again, not the sentinel 0. -/
theorem Write_small_header (z : Codec) (c : compressableWriterConn) (b : List Byte)
    (fuel : Nat) (hc : c.compression = true) (hr : c.headerReady) (hs : c.seq < 256)
    (hb : b.length ≤ 50) :
    (rawWrites c (c.Write z (fuel + 1) b).1).head? = some (headerBytes b.length c.seq) ∧
    (headerBytes b.length c.seq).length = 7 ∧
    lengthField (headerBytes b.length c.seq) = b.length ∧
    seqField (headerBytes b.length c.seq) = c.seq ∧
    uncompressedField (headerBytes b.length c.seq) = b.length := by
  obtain ⟨rest, h⟩ := compressableWriterConn.WriteN_first_small z fuel c b false hc hr hb
  refine ⟨?_, rfl, ?_, ?_, ?_⟩
  · simp [rawWrites, compressableWriterConn.Write, h]
  · rw [lengthField_headerBytes]; omega
  · rw [seqField_headerBytes]; omega
  · rw [uncompressedField_headerBytes]; omega

theorem Write_small_header_witness :
    (rawWrites (newWriter (freshConn [])).activateCompression.1
      ((newWriter (freshConn [])).activateCompression.1.Write plainCodec 1
        [97, 97, 97]).1).head? = some [3, 0, 0, 0, 3, 0, 0] ∧
      uncompressedField [3, 0, 0, 0, 3, 0, 0] = 3 :=
  have h := Write_small_header plainCodec (newWriter (freshConn [])).activateCompression.1
    [97, 97, 97] 0 rfl ⟨_, rfl, rfl⟩ (by decide) (by decide)
  ⟨h.1, h.2.2.2.2⟩

/-- Claim C4, as the code behaves: for `len(b) > 50`, when zlib delivers `res`
(shorter than 2^24 bytes), the first raw write of `Write(b)` is a 7-byte header
whose length field is `len(res)` and whose sequence byte is the counter before
the call, but whose uncompressed-length field (bytes 4..6) is `len(res)` again,
not `len(b)`. -/
theorem Write_large_header (z : Codec) (c : compressableWriterConn) (b res : List Byte)
    (fuel : Nat) (hc : c.compression = true) (hr : c.headerReady) (hs : c.seq < 256)
    (hb : 50 < b.length) (hz : z.compress b = .ok res) (hres : res.length < 2 ^ 24) :
    (rawWrites c (c.Write z (fuel + 1) b).1).head? = some (headerBytes res.length c.seq) ∧
    (headerBytes res.length c.seq).length = 7 ∧
    lengthField (headerBytes res.length c.seq) = res.length ∧
    seqField (headerBytes res.length c.seq) = c.seq ∧
    uncompressedField (headerBytes res.length c.seq) = res.length := by
  obtain ⟨rest, h⟩ := compressableWriterConn.WriteN_first_large z fuel c b res false hc hr hb
    (by simpa using hz)
  refine ⟨?_, rfl, ?_, ?_, ?_⟩
  · simp [rawWrites, compressableWriterConn.Write, h]
  · rw [lengthField_headerBytes]; omega
  · rw [seqField_headerBytes]; omega
  · rw [uncompressedField_headerBytes]; omega

theorem Write_large_header_witness :
    (rawWrites (newWriter (freshConn [])).activateCompression.1
      ((newWriter (freshConn [])).activateCompression.1.Write plainCodec 1
        (List.replicate 51 120)).1).head? = some [53, 0, 0, 0, 53, 0, 0] ∧
      uncompressedField [53, 0, 0, 0, 53, 0, 0] = 53 :=
  have h := Write_large_header plainCodec (newWriter (freshConn [])).activateCompression.1
    (List.replicate 51 120) (0x78 :: 0x01 :: List.replicate 51 120) 0 rfl ⟨_, rfl, rfl⟩
    (by decide) (by decide) rfl (by decide)
  ⟨h.1, h.2.2.2.2⟩

/-- Claim C1, as the code behaves: the round trip does not take place.  On a raw
stream that accepts every write, a freshly activated writer never returns
successfully from `Write(b)`, whatever the payload and the bound on nested
calls; and whenever it has put bytes on the stream, the first `Read` of a
freshly activated reader on these bytes returns no data and the sequence error
"got 0, expected 128". -/
theorem roundtrip_rejected (z : Codec) (nc : NetConn) (b : List Byte) (fuel cap : Nat)
    (rxErr : StreamError) (hw : nc.writesSucceed) :
    (∀ n, ((newWriter nc).activateCompression.1.Write z fuel b).2 ≠ .returned (n, none)) ∧
    ((rawWrites (newWriter nc).activateCompression.1
        ((newWriter nc).activateCompression.1.Write z fuel b).1).flatten ≠ [] →
      ((newReader ⟨(rawWrites (newWriter nc).activateCompression.1
          ((newWriter nc).activateCompression.1.Write z fuel b).1).flatten,
          rxErr, [], []⟩).activateCompression.1.Read z cap).2 =
        .returned ⟨[], some (.wrongSeq 0 128)⟩) := by
  have hr : (newWriter nc).activateCompression.1.headerReady := ⟨_, rfl, rfl⟩
  refine ⟨(compressableWriterConn.WriteN_never_succeeds z fuel _ b false rfl hr hw).1, ?_⟩
  intro hne
  rcases compressableWriterConn.WriteN_wire_head z fuel
    (newWriter nc).activateCompression.1 b false rfl hr with h | ⟨n, rest, h⟩
  · exact absurd (by rw [compressableWriterConn.Write, h]; rfl) hne
  · have hs : seqField (headerBytes n 0) ≠ (MaxInt8 + 1) % 256 := by
      rw [seqField_headerBytes]; decide
    rw [compressableWriterConn.Write, h, List.flatten_cons, compressableReaderConn.Read,
      compressableReaderConn.ReadN_reject z 1 _ cap (headerBytes n 0) rest.flatten rfl rfl rfl rfl
        hs]
    rw [seqField_headerBytes]
    rfl

theorem roundtrip_rejected_witness :
    ((newReader ⟨(rawWrites (newWriter (freshConn [])).activateCompression.1
        ((newWriter (freshConn [])).activateCompression.1.Write plainCodec 2
          [97, 97, 97]).1).flatten,
        .EOF, [], []⟩).activateCompression.1.Read plainCodec 3).2 =
      .returned ⟨[], some (.wrongSeq 0 128)⟩ :=
  (roundtrip_rejected plainCodec (freshConn []) [97, 97, 97] 2 3 .EOF (by decide)).2
    (by decide)

/-- Claim C5, as the code behaves: consecutive payloads do not get the ids
0, 1, ..., N-1.  On a raw stream that accepts every write, the one call
`Write(b)` for a payload of at most 50 bytes, made with the counter at `s`, is
still running at every bound `fuel` and has by then sent `fuel` headers for
that single payload, with the sequence ids `s, s+1, ..., s+fuel-1` modulo 256,
leaving the counter at `s + fuel`; a second payload is never reached. -/
theorem one_payload_takes_many_ids (z : Codec) (c : compressableWriterConn) (b : List Byte)
    (fuel : Nat) (hc : c.compression = true) (hr : c.headerReady) (hs : c.seq < 256)
    (hw : c.Conn.writesSucceed) (hb : b.length ≤ 50) :
    (c.Write z fuel b).2 = .running ∧
    rawWrites c (c.Write z fuel b).1 =
      (List.range fuel).map (fun i => headerBytes b.length (c.seq + i)) ∧
    (∀ i, i < fuel →
      ((rawWrites c (c.Write z fuel b).1)[i]?).map seqField = some ((c.seq + i) % 256)) ∧
    (c.Write z fuel b).1.seq = (c.seq + fuel) % 256 := by
  obtain ⟨h1, h2⟩ := compressableWriterConn.WriteN_small_trace z b hb fuel c false hc hr hw
  have h3 : rawWrites c (c.Write z fuel b).1 =
      (List.range fuel).map (fun i => headerBytes b.length (c.seq + i)) := by
    simp [rawWrites, compressableWriterConn.Write, h2]
  refine ⟨h1, h3, ?_, compressableWriterConn.WriteN_small_seq z b hb fuel c false hc hr hw hs⟩
  intro i hi
  rw [h3]
  simp [hi, seqField_headerBytes]

theorem one_payload_takes_many_ids_witness :
    ((newWriter (freshConn [])).activateCompression.1.Write plainCodec 3 [97, 97, 97]).2
        = .running ∧
    rawWrites (newWriter (freshConn [])).activateCompression.1
        ((newWriter (freshConn [])).activateCompression.1.Write plainCodec 3 [97, 97, 97]).1
      = [[3, 0, 0, 0, 3, 0, 0], [3, 0, 0, 1, 3, 0, 0], [3, 0, 0, 2, 3, 0, 0]] :=
  have h := one_payload_takes_many_ids plainCodec (newWriter (freshConn [])).activateCompression.1
    [97, 97, 97] 3 rfl ⟨_, rfl, rfl⟩ (by decide) (by decide) (by decide)
  ⟨h.1, h.2.1⟩

/-- Sequence numbering at the level of `writeHeader`: after
`activateCompression` of a writer (zero value or with its header slice
allocated), the i-th frame header written by consecutive
`writeHeader` calls, counted from 0, is a 7-byte header carrying sequence byte
`i mod 256`; after N calls the counter is `N mod 256`; and every `writeHeader`
call that returns has moved the counter on by exactly one modulo 256. -/
theorem encoder_sequence_numbering (c : compressableWriterConn) (args : List (Nat × Nat))
    (hh : c.header = none ∨ c.headerReady) :
    c.activateCompression.1.seq = 0 ∧
    (rawWrites c.activateCompression.1
      (writeHeaders c.activateCompression.1 args)).length = args.length ∧
    (∀ i hd, (rawWrites c.activateCompression.1
        (writeHeaders c.activateCompression.1 args))[i]? = some hd →
      hd.length = 7 ∧ seqField hd = i % 256) ∧
    (writeHeaders c.activateCompression.1 args).seq = args.length % 256 ∧
    (∀ (c0 c1 : compressableWriterConn) (n u : Nat) (e : Option Error),
      c0.writeHeader n u = .returned (c1, e) → c1.seq = (c0.seq + 1) % 256) := by
  have hr : c.activateCompression.1.headerReady := by
    rcases hh with h | ⟨h, hh, hl⟩
    · exact ⟨List.replicate 7 0, by simp [compressableWriterConn.activateCompression, h], rfl⟩
    · exact ⟨h, by simp [compressableWriterConn.activateCompression, hh], hl⟩
  obtain ⟨l, h1, h2, h3, h4⟩ := writeHeaders_trace args c.activateCompression.1 hr
    (by simp [compressableWriterConn.activateCompression])
  have hs0 : c.activateCompression.1.seq = 0 := rfl
  refine ⟨rfl, ?_, ?_, ?_, ?_⟩
  · simp [rawWrites, h1, h2]
  · intro i hd hi
    simp only [rawWrites, h1, List.drop_left] at hi
    have := h3 i hd hi
    rw [hs0, Nat.zero_add] at this
    exact this
  · rw [h4, hs0, Nat.zero_add]
  · intro c0 c1 n u e h
    exact (compressableWriterConn.writeHeader_returned c0 c1 n u e h).2.2.1

theorem encoder_sequence_numbering_witness :
    (rawWrites (newWriter (freshConn [])).activateCompression.1
      (writeHeaders (newWriter (freshConn [])).activateCompression.1
        [(3, 0), (53, 51), (0, 0)])).length = 3 ∧
    (writeHeaders (newWriter (freshConn [])).activateCompression.1
        [(3, 0), (53, 51), (0, 0)]).seq = 3 % 256 :=
  have h := encoder_sequence_numbering (newWriter (freshConn [])) [(3, 0), (53, 51), (0, 0)]
    (Or.inl rfl)
  ⟨h.2.1, h.2.2.2.1⟩

/-- Claim C6, as the code behaves: `activateCompression` stores `math.MaxInt8`,
so the first frame a reader accepts must carry sequence id 128.  A first header
with any other sequence byte, 0 included, makes the first `Read` return no data
and the sequence error "got that byte, expected 128"; a first header with byte
128 does not end in the sequence error. -/
theorem first_frame_expects_128 (z : Codec) (c : compressableReaderConn) (cap : Nat)
    (hdr rest : List Byte) (hl : hdr.length = 7) (hrx : c.Conn.rx = hdr ++ rest) :
    (seqField hdr ≠ 128 →
      (c.activateCompression.1.Read z cap).2 =
        .returned ⟨[], some (.wrongSeq (seqField hdr) 128)⟩) ∧
    (seqField hdr = 128 → ¬ isSeqError (c.activateCompression.1.Read z cap).2) := by
  constructor
  · intro hs
    rw [compressableReaderConn.Read,
      compressableReaderConn.ReadN_reject z 1 c.activateCompression.1 cap hdr rest rfl rfl hl hrx
        (by simpa [compressableReaderConn.activateCompression, MaxInt8] using hs)]
    rfl
  · intro hs
    exact compressableReaderConn.accept_no_seqError z c.activateCompression.1 cap hdr rest
      rfl rfl hl hrx (by simpa [compressableReaderConn.activateCompression, MaxInt8] using hs)

theorem first_frame_expects_128_witness :
    ((newReader (freshConn [0, 0, 0, 0, 0, 0, 0])).activateCompression.1.Read plainCodec 8).2 =
      .returned ⟨[], some (.wrongSeq 0 128)⟩ :=
  (first_frame_expects_128 plainCodec (newReader (freshConn [0, 0, 0, 0, 0, 0, 0])) 8
    [0, 0, 0, 0, 0, 0, 0] [] rfl rfl).1 (by decide)

/-- Claim C7: with compression on, no remainder pending and a 7-byte header
delivered by the frame source, `Read` fails with the sequence error exactly
when the header's sequence byte differs from the stored counter plus one modulo
256; the failing call returns `n = 0`, and the error text names the received
id and then the expected id. -/
theorem Read_sequence_violation (z : Codec) (c : compressableReaderConn) (cap : Nat)
    (hdr rest : List Byte) (hc : c.compression = true) (hrem : c.remainder = none)
    (hl : hdr.length = 7) (hrx : c.Conn.rx = hdr ++ rest) :
    (isSeqError (c.Read z cap).2 ↔ seqField hdr ≠ (c.seq + 1) % 256) ∧
    (seqField hdr ≠ (c.seq + 1) % 256 →
      ∃ r, (c.Read z cap).2 = .returned r ∧ r.n = 0 ∧
        r.err = some (.wrongSeq (seqField hdr) ((c.seq + 1) % 256)) ∧
        (Error.wrongSeq (seqField hdr) ((c.seq + 1) % 256)).message =
          "wrong seq number [" ++ toString (seqField hdr) ++ " != " ++
            toString ((c.seq + 1) % 256) ++ "] on compressed connection") := by
  have hrej : seqField hdr ≠ (c.seq + 1) % 256 →
      (c.Read z cap).2 =
        .returned ⟨[], some (.wrongSeq (seqField hdr) ((c.seq + 1) % 256))⟩ := by
    intro hs
    rw [compressableReaderConn.Read,
      compressableReaderConn.ReadN_reject z 1 c cap hdr rest hc hrem hl hrx hs]
  refine ⟨⟨?_, ?_⟩, ?_⟩
  · intro h hs
    exact compressableReaderConn.accept_no_seqError z c cap hdr rest hc hrem hl hrx hs h
  · intro hs
    exact ⟨_, _, _, hrej hs, rfl⟩
  · intro hs
    exact ⟨_, hrej hs, rfl, rfl, rfl⟩

theorem Read_sequence_violation_witness :
    ∃ r, ((⟨freshConn [0, 0, 0, 3, 0, 0, 0], true, 1, none⟩ :
        compressableReaderConn).Read plainCodec 8).2 = .returned r ∧ r.n = 0 ∧
      r.err = some (.wrongSeq 3 2) ∧
      (Error.wrongSeq 3 2).message = "wrong seq number [3 != 2] on compressed connection" :=
  (Read_sequence_violation plainCodec ⟨freshConn [0, 0, 0, 3, 0, 0, 0], true, 1, none⟩ 8
    [0, 0, 0, 3, 0, 0, 0] [] rfl rfl rfl rfl).2 (by decide)

/-- Claim C8, as the code behaves: a frame with the expected sequence id whose
uncompressed-length field is 0 is not taken verbatim.  `Read` hands its body to
`zlib.NewReader` like any other body: when zlib rejects the body, `Read`
returns no data and zlib's error and installs no remainder; when zlib accepts
it, the remainder installed is zlib's reader, not the body. -/
theorem sentinel_body_goes_to_zlib (z : Codec) (c : compressableReaderConn) (cap : Nat)
    (hdr body rest : List Byte) (hc : c.compression = true) (hrem : c.remainder = none)
    (hl : hdr.length = 7) (hrx : c.Conn.rx = hdr ++ (body ++ rest))
    (hlen : parsedLength hdr = body.length) (hs : seqField hdr = (c.seq + 1) % 256)
    (hu : uncompressedField hdr = 0) :
    (∀ e, z.NewReader body = .error e →
      c.Read z cap =
        ({ c with seq := (c.seq + 1) % 256, Conn := { c.Conn with rx := rest },
                  remainder := none },
          .returned ⟨[], some (.io e)⟩)) ∧
    (∀ r, z.NewReader body = .ok r →
      c.Read z cap =
        compressableReaderConn.ReadN z 1
          { c with seq := (c.seq + 1) % 256, Conn := { c.Conn with rx := rest },
                   remainder := some r } cap) := by
  have hb := buffer.readNext_append { c.Conn with rx := body ++ rest } body rest rfl
  rw [← hlen] at hb
  constructor
  · intro e he
    rw [compressableReaderConn.Read,
      compressableReaderConn.ReadN_accept z 1 c cap hdr (body ++ rest) hc hrem hl hrx hs, hb]
    simp only [he]
  · intro r hr
    rw [compressableReaderConn.Read,
      compressableReaderConn.ReadN_accept z 1 c cap hdr (body ++ rest) hc hrem hl hrx hs, hb]
    simp only [hr]

theorem sentinel_body_goes_to_zlib_witness :
    (newReader (freshConn [3, 0, 0, 128, 0, 0, 0, 97, 97, 97])).activateCompression.1.Read
        plainCodec 8 =
      (⟨freshConn [], true, 128, none⟩, .returned ⟨[], some (.io (.other 1))⟩) :=
  (sentinel_body_goes_to_zlib plainCodec
    (newReader (freshConn [3, 0, 0, 128, 0, 0, 0, 97, 97, 97])).activateCompression.1 8
    [3, 0, 0, 128, 0, 0, 0] [97, 97, 97] [] rfl rfl rfl rfl (by decide) (by decide)
    (by decide)).1 (.other 1) rfl

/-- Claim C9: while a remainder is pending, `Read` serves the caller from it
alone: the call returns at most `len(b)` of the next bytes of the remainder
and leaves the connection (nothing is consumed from the frame source) and the
sequence counter as they were.  Successive reads therefore return the bytes of
the decompressed body `d` in order: what they returned, followed by what the
remainder still holds, is `d`, and when the remainder has been cleared their
concatenation is `d`.  With buffers of `cap > 0` bytes this happens after
`readsNeeded` reads of a well-formed body, with no frame read in between. -/
theorem remainder_draining (z : Codec) (c : compressableReaderConn) (r : ReadCloser)
    (cap k : Nat) (caps : List Nat) (hc : c.compression = true) (hrem : c.remainder = some r) :
    (∃ res, (c.Read z cap).2 = .returned res ∧ res.data.length ≤ cap ∧
      res.data ++ remainderBytes (c.Read z cap).1.remainder = r.pending) ∧
    (c.Read z cap).1.Conn = c.Conn ∧ (c.Read z cap).1.seq = c.seq ∧
    (drainRemainder z c caps).2 ++ remainderBytes (drainRemainder z c caps).1.remainder
      = r.pending ∧
    (drainRemainder z c caps).1.Conn = c.Conn ∧
    (drainRemainder z c caps).1.seq = c.seq ∧
    ((drainRemainder z c caps).1.remainder = none → (drainRemainder z c caps).2 = r.pending) ∧
    (r.final = .EOF → 0 < cap → readsNeeded cap r.chunks ≤ k →
      (drainRemainder z c (List.replicate k cap)).2 = r.pending ∧
      (drainRemainder z c (List.replicate k cap)).1.remainder = none ∧
      (drainRemainder z c (List.replicate k cap)).1.Conn = c.Conn) := by
  obtain ⟨h1, h2, h3⟩ := drainRemainder_spec z caps c r hc hrem
  obtain ⟨hsplit, hlen, _, herr⟩ := ReadCloser.Read_spec r cap
  have hread := compressableReaderConn.Read_remainder z c cap r hc hrem
  refine ⟨?_, ?_, ?_, h1, h2, h3, ?_, ?_⟩
  · rw [hread]
    by_cases hE : (r.Read cap).2.2 = some StreamError.EOF
    · rw [if_pos hE]
      refine ⟨_, rfl, hlen, ?_⟩
      have hp : (r.Read cap).1.pending = [] := by simp [ReadCloser.pending, (herr _ hE).2]
      rw [hp, List.append_nil] at hsplit
      simp [remainderBytes, hsplit]
    · rw [if_neg hE]
      exact ⟨_, rfl, hlen, hsplit⟩
  · rw [hread]
    split <;> rfl
  · rw [hread]
    split <;> rfl
  · intro hnone
    rw [hnone] at h1
    simpa [remainderBytes] using h1
  · intro hf hcap hk
    obtain ⟨g1, g2, _⟩ := drainRemainder_spec z (List.replicate k cap) c r hc hrem
    have hnone := drainRemainder_complete z cap hcap k c r hc hrem hf hk
    rw [hnone] at g1
    exact ⟨by simpa [remainderBytes] using g1, hnone, g2⟩

theorem remainder_draining_witness :
    ((drainRemainder plainCodec
        ⟨freshConn [], true, 128, some ⟨[List.replicate 1000 120], .EOF⟩⟩
        (List.replicate 10 100)).2 = ReadCloser.pending ⟨[List.replicate 1000 120], .EOF⟩ ∧
      (drainRemainder plainCodec
        ⟨freshConn [], true, 128, some ⟨[List.replicate 1000 120], .EOF⟩⟩
        (List.replicate 10 100)).1.remainder = none) ∧
    ((drainRemainder plainCodec ⟨freshConn [], true, 128, some ⟨[[1, 2, 3], [4, 5]], .EOF⟩⟩
        (List.replicate 3 2)).2 = [1, 2, 3, 4, 5] ∧
      (drainRemainder plainCodec ⟨freshConn [], true, 128, some ⟨[[1, 2, 3], [4, 5]], .EOF⟩⟩
        (List.replicate 3 2)).1.remainder = none) :=
  have h := (remainder_draining plainCodec
    ⟨freshConn [], true, 128, some ⟨[List.replicate 1000 120], .EOF⟩⟩
    ⟨[List.replicate 1000 120], .EOF⟩ 100 10 [] rfl rfl).2.2.2.2.2.2.2 rfl (by decide)
    (by
      rw [readsNeeded, if_neg (List.cons_ne_nil _ _)]
      simp only [chunkReads, List.map_cons, List.map_nil, List.sum_cons, List.sum_nil,
        List.length_replicate]
      decide)
  have g := (remainder_draining plainCodec
    ⟨freshConn [], true, 128, some ⟨[[1, 2, 3], [4, 5]], .EOF⟩⟩
    ⟨[[1, 2, 3], [4, 5]], .EOF⟩ 2 3 [] rfl rfl).2.2.2.2.2.2.2 rfl (by decide) (by decide)
  ⟨⟨h.1, h.2.1⟩, ⟨g.1, g.2.1⟩⟩

/-- Claim C10: with the compression flag off, `Read(b)` and `Write(b)` are the
raw stream's `Read(b)` and `Write(b)`: they return its `(n, err)`, the
connection afterwards is the one that single raw call leaves (for `Write` the
one raw write made is `b` itself, so no header is sent), and flag, sequence
counter, remainder and header buffer are unchanged. -/
theorem passthrough_before_activation (z : Codec) (r : compressableReaderConn)
    (w : compressableWriterConn) (b : List Byte) (cap fuel : Nat)
    (hr : r.compression = false) (hw : w.compression = false) :
    r.Read z cap =
      ({ r with Conn := (r.Conn.Read cap).1 },
        .returned ⟨(r.Conn.Read cap).2.1, (r.Conn.Read cap).2.2.map Error.io⟩) ∧
    w.Write z (fuel + 1) b =
      ({ w with Conn := (w.Conn.Write b).1 },
        .returned ((w.Conn.Write b).2.1, (w.Conn.Write b).2.2.map Error.io)) ∧
    rawWrites w (w.Write z (fuel + 1) b).1 = [b] := by
  have hW : w.Write z (fuel + 1) b =
      ({ w with Conn := (w.Conn.Write b).1 },
        .returned ((w.Conn.Write b).2.1, (w.Conn.Write b).2.2.map Error.io)) := by
    rw [compressableWriterConn.Write, compressableWriterConn.WriteN, if_pos (by simp [hw])]
  refine ⟨?_, hW, ?_⟩
  · show compressableReaderConn.ReadN z (1 + 1) r cap = _
    rw [compressableReaderConn.ReadN, if_pos (by simp [hr])]
  · rw [hW]
    simp [rawWrites, NetConn.Write_tx]

theorem passthrough_before_activation_witness :
    (newReader (freshConn [1, 2, 3])).Read plainCodec 2 =
      (⟨⟨[3], .EOF, [], []⟩, false, 0, none⟩, .returned ⟨[1, 2], none⟩) ∧
    (newWriter (freshConn [])).Write plainCodec 1 [97, 97, 97] =
      (⟨⟨[], .EOF, [[97, 97, 97]], []⟩, false, 0, none, []⟩, .returned (3, none)) :=
  have h := passthrough_before_activation plainCodec (newReader (freshConn [1, 2, 3]))
    (newWriter (freshConn [])) [97, 97, 97] 2 0 rfl rfl
  ⟨h.1, h.2.1⟩

/-- Claim C11, counterexample: a decoder fed a frame whose body zlib rejects
(`"aaa"` is no zlib stream), followed by a well-formed frame with the next
sequence id (129) whose body is the zlib stream of `"aaa"`.  The first `Read`
fails with zlib's error; the second `Read` succeeds and returns `"aaa"`. -/
theorem corrupt_body_next_read_succeeds :
    ((newReader (freshConn ([3, 0, 0, 128, 3, 0, 0] ++ [97, 97, 97] ++
        [14, 0, 0, 129, 14, 0, 0] ++
        [0x78, 0x01, 0x01, 3, 0, 0xfc, 0xff, 97, 97, 97, 0x02, 0x49, 0x01, 0x24]))
      ).activateCompression.1.Read storedZlib 10).2 =
        .returned ⟨[], some (.io (.other 1))⟩ ∧
    (((newReader (freshConn ([3, 0, 0, 128, 3, 0, 0] ++ [97, 97, 97] ++
        [14, 0, 0, 129, 14, 0, 0] ++
        [0x78, 0x01, 0x01, 3, 0, 0xfc, 0xff, 97, 97, 97, 0x02, 0x49, 0x01, 0x24]))
      ).activateCompression.1.Read storedZlib 10).1.Read storedZlib 10).2 =
        .returned ⟨[97, 97, 97], none⟩ := by
  decide

/-- Claim C11, amended: for a frame with the expected sequence id whose body
zlib rejects, `Read` returns `n = 0` and zlib's error, having moved the
sequence counter on and consumed header and body, with no remainder installed.
The decoder keeps no error state: when the following bytes are a well-formed
frame carrying the next sequence id, the next `Read` decodes it and returns,
without error, the bytes that the first read of zlib's reader hands out. -/
theorem corrupt_body_no_latch (z : Codec) (c : compressableReaderConn) (cap cap2 : Nat)
    (hdr body rest : List Byte) (e : StreamError)
    (hc : c.compression = true) (hrem : c.remainder = none)
    (hl : hdr.length = 7) (hrx : c.Conn.rx = hdr ++ (body ++ rest))
    (hlen : parsedLength hdr = body.length) (hs : seqField hdr = (c.seq + 1) % 256)
    (hz : z.NewReader body = .error e) :
    c.Read z cap =
      ({ c with seq := (c.seq + 1) % 256, Conn := { c.Conn with rx := rest },
                remainder := none },
        .returned ⟨[], some (.io e)⟩) ∧
    (∀ (hdr2 body2 rest2 : List Byte) (r2 : ReadCloser),
      rest = hdr2 ++ (body2 ++ rest2) → hdr2.length = 7 → parsedLength hdr2 = body2.length →
      seqField hdr2 = (seqField hdr + 1) % 256 → z.NewReader body2 = .ok r2 →
      r2.final = .EOF →
      ((c.Read z cap).1.Read z cap2).2 = .returned ⟨(r2.Read cap2).2.1, none⟩) := by
  have h1 := compressableReaderConn.Read_frame_error z c cap hdr body rest e hc hrem hl hrx
    hlen hs hz
  refine ⟨h1, ?_⟩
  intro hdr2 body2 rest2 r2 hrest hl2 hlen2 hs2 hz2 hf2
  rw [h1]
  exact compressableReaderConn.Read_frame_ok z
    { c with seq := (c.seq + 1) % 256, Conn := { c.Conn with rx := rest }, remainder := none }
    cap2 hdr2 body2 rest2 r2 hc rfl hl2 hrest hlen2 (by rw [hs2, hs]) hz2 hf2

theorem corrupt_body_no_latch_witness :
    (((newReader (freshConn ([3, 0, 0, 128, 3, 0, 0] ++ ([97, 97, 97] ++
        ([14, 0, 0, 129, 14, 0, 0] ++
        ([0x78, 0x01, 0x01, 3, 0, 0xfc, 0xff, 97, 97, 97, 0x02, 0x49, 0x01, 0x24] ++ [])))))
      ).activateCompression.1.Read storedZlib 8).1.Read storedZlib 2).2 =
        .returned ⟨[97, 97], none⟩ :=
  (corrupt_body_no_latch storedZlib
    (newReader (freshConn ([3, 0, 0, 128, 3, 0, 0] ++ ([97, 97, 97] ++
        ([14, 0, 0, 129, 14, 0, 0] ++
        ([0x78, 0x01, 0x01, 3, 0, 0xfc, 0xff, 97, 97, 97, 0x02, 0x49, 0x01, 0x24] ++ [])))))
      ).activateCompression.1 8 2 [3, 0, 0, 128, 3, 0, 0] [97, 97, 97]
    ([14, 0, 0, 129, 14, 0, 0] ++
        ([0x78, 0x01, 0x01, 3, 0, 0xfc, 0xff, 97, 97, 97, 0x02, 0x49, 0x01, 0x24] ++ []))
    (.other 1) rfl rfl rfl rfl (by decide) (by decide) rfl).2
    [14, 0, 0, 129, 14, 0, 0]
    [0x78, 0x01, 0x01, 3, 0, 0xfc, 0xff, 97, 97, 97, 0x02, 0x49, 0x01, 0x24] []
    ⟨[[97, 97, 97]], .EOF⟩ rfl rfl (by decide) (by decide) rfl rfl

/-- Claim C12: for a 7-byte header `d` delivered by the frame source,
`readCompressedHeader` returns the length `d[0] + 256*d[1] + 65536*d[2]`, a
value below 2^24, and the sequence id `d[3]`, with no error; and `Read`, once
the sequence id has passed its check, asks the frame source for exactly that
many body bytes. -/
theorem header_parsing (z : Codec) (c : compressableReaderConn) (cap : Nat)
    (d rest : List Byte) (hl : d.length = 7) (hrx : c.Conn.rx = d ++ rest)
    (hb : ∀ x ∈ d, x < 256) :
    c.readCompressedHeader =
      ({ c with Conn := { c.Conn with rx := rest } },
        d.getD 0 0 + 256 * d.getD 1 0 + 65536 * d.getD 2 0, d.getD 3 0, none) ∧
    d.getD 0 0 + 256 * d.getD 1 0 + 65536 * d.getD 2 0 < 2 ^ 24 ∧
    (c.compression = true → c.remainder = none → d.getD 3 0 = (c.seq + 1) % 256 →
      c.Read z cap =
        match buffer.readNext { c.Conn with rx := rest }
            (d.getD 0 0 + 256 * d.getD 1 0 + 65536 * d.getD 2 0) with
        | (nc, .error e) =>
          ({ c with seq := (c.seq + 1) % 256, Conn := nc }, .returned ⟨[], some (.io e)⟩)
        | (nc, .ok compressed) =>
          match z.NewReader compressed with
          | .error e =>
            ({ c with seq := (c.seq + 1) % 256, Conn := nc, remainder := none },
              .returned ⟨[], some (.io e)⟩)
          | .ok r =>
            compressableReaderConn.ReadN z 1
              { c with seq := (c.seq + 1) % 256, Conn := nc, remainder := some r } cap) := by
  obtain ⟨h1, h2⟩ := parsedLength_bytes d hb
  have e : parsedLength d = d.getD 0 0 + 256 * d.getD 1 0 + 65536 * d.getD 2 0 := h1
  refine ⟨?_, ?_, ?_⟩
  · rw [compressableReaderConn.readCompressedHeader_ok c d rest hl hrx, e]
    rfl
  · rw [← e]
    exact h2
  · intro hc hrem hs
    rw [compressableReaderConn.Read,
      compressableReaderConn.ReadN_accept z 1 c cap d rest hc hrem hl hrx hs, e]

theorem header_parsing_witness :
    (⟨freshConn [1, 2, 3, 9, 0, 0, 0, 5], true, 8, none⟩ :
        compressableReaderConn).readCompressedHeader =
      (⟨freshConn [5], true, 8, none⟩, 1 + 256 * 2 + 65536 * 3, 9, none) :=
  (header_parsing plainCodec ⟨freshConn [1, 2, 3, 9, 0, 0, 0, 5], true, 8, none⟩ 4
    [1, 2, 3, 9, 0, 0, 0] [5] rfl rfl (by decide)).1

/-- Claim C13: when `Read` rejects a header for its sequence byte, the decoder's
sequence counter, compression flag and remainder are what they were before the
call, and the frame source has delivered the 7 header bytes and nothing else:
no body byte is requested, whatever follows the header on the stream. -/
theorem no_advance_on_mismatch (z : Codec) (c : compressableReaderConn) (cap : Nat)
    (hdr rest : List Byte) (hc : c.compression = true) (hrem : c.remainder = none)
    (hl : hdr.length = 7) (hrx : c.Conn.rx = hdr ++ rest)
    (hs : seqField hdr ≠ (c.seq + 1) % 256) :
    isSeqError (c.Read z cap).2 ∧
    (c.Read z cap).1.seq = c.seq ∧
    (c.Read z cap).1.compression = c.compression ∧
    (c.Read z cap).1.remainder = c.remainder ∧
    (c.Read z cap).1.Conn = { c.Conn with rx := rest } := by
  rw [compressableReaderConn.Read,
    compressableReaderConn.ReadN_reject z 1 c cap hdr rest hc hrem hl hrx hs]
  exact ⟨⟨_, _, _, rfl, rfl⟩, rfl, rfl, rfl, rfl⟩

theorem no_advance_on_mismatch_witness :
    ((⟨freshConn [200, 0, 0, 3, 0, 0, 0], true, 1, none⟩ :
        compressableReaderConn).Read plainCodec 8).1.seq = 1 ∧
    ((⟨freshConn [200, 0, 0, 3, 0, 0, 0], true, 1, none⟩ :
        compressableReaderConn).Read plainCodec 8).1.compression = true ∧
    ((⟨freshConn [200, 0, 0, 3, 0, 0, 0], true, 1, none⟩ :
        compressableReaderConn).Read plainCodec 8).1.remainder = none ∧
    ((⟨freshConn [200, 0, 0, 3, 0, 0, 0], true, 1, none⟩ :
        compressableReaderConn).Read plainCodec 8).1.Conn = freshConn [] :=
  (no_advance_on_mismatch plainCodec ⟨freshConn [200, 0, 0, 3, 0, 0, 0], true, 1, none⟩
    8 [200, 0, 0, 3, 0, 0, 0] [] rfl rfl rfl rfl (by decide)).2

/-- Claim C14: when `Read` accepts a frame header with sequence id `s`, the
stored counter becomes `s`, stays `s` while the frame's remainder is drained,
and the next header is accepted exactly when its id is `(s + 1) mod 256`; so
after 255 comes 0, and a header that repeats `s` or skips ahead is rejected
with the sequence error. -/
theorem decoder_sequence_contiguity (z : Codec) (c : compressableReaderConn) (cap : Nat)
    (hdr rest : List Byte) (hc : c.compression = true) (hrem : c.remainder = none)
    (hl : hdr.length = 7) (hrx : c.Conn.rx = hdr ++ rest)
    (hs : seqField hdr = (c.seq + 1) % 256) :
    (c.Read z cap).1.seq = seqField hdr ∧
    (∀ caps, (drainRemainder z (c.Read z cap).1 caps).1.seq = seqField hdr) ∧
    (∀ (c2 : compressableReaderConn) (cap2 : Nat) (hdr2 rest2 : List Byte),
      c2.compression = true → c2.remainder = none → c2.seq = seqField hdr →
      hdr2.length = 7 → c2.Conn.rx = hdr2 ++ rest2 →
      (isSeqError (c2.Read z cap2).2 ↔ seqField hdr2 ≠ (seqField hdr + 1) % 256) ∧
      (seqField hdr2 = seqField hdr → isSeqError (c2.Read z cap2).2)) ∧
    (seqField hdr = 255 → (seqField hdr + 1) % 256 = 0) := by
  obtain ⟨h1, h2⟩ := compressableReaderConn.Read_accept_state z c cap hdr rest hc hrem hl hrx hs
  refine ⟨by rw [h1, hs], ?_, ?_, ?_⟩
  · intro caps
    rw [drainRemainder_seq z _ caps h2, h1, hs]
  · intro c2 cap2 hdr2 rest2 hc2 hrem2 hseq2 hl2 hrx2
    have hiff : isSeqError (c2.Read z cap2).2 ↔ seqField hdr2 ≠ (seqField hdr + 1) % 256 := by
      rw [← hseq2]
      constructor
      · intro h hs2
        exact compressableReaderConn.accept_no_seqError z c2 cap2 hdr2 rest2 hc2 hrem2 hl2 hrx2
          hs2 h
      · intro hs2
        rw [compressableReaderConn.Read,
          compressableReaderConn.ReadN_reject z 1 c2 cap2 hdr2 rest2 hc2 hrem2 hl2 hrx2 hs2]
        exact ⟨_, _, _, rfl, rfl⟩
    refine ⟨hiff, ?_⟩
    intro hrep
    apply hiff.2
    rw [hrep, hs]
    omega
  · intro h
    rw [h]

theorem decoder_sequence_contiguity_witness :
    ((⟨freshConn [0, 0, 0, 255, 0, 0, 0], true, 254, none⟩ :
        compressableReaderConn).Read plainCodec 8).1.seq = 255 ∧
      (255 + 1) % 256 = 0 :=
  have h := decoder_sequence_contiguity plainCodec
    ⟨freshConn [0, 0, 0, 255, 0, 0, 0], true, 254, none⟩ 8 [0, 0, 0, 255, 0, 0, 0] []
    rfl rfl rfl rfl (by decide)
  ⟨h.1, h.2.2.2 rfl⟩

/-- Claim C15: when the pending remainder's read returns `(n, io.EOF)`, `Read`
returns the same `n` bytes with a nil error and clears the remainder, so that
the next `Read` reads a frame header (it ends in the sequence error exactly
when the next header's id is not the expected one); any other error of the
remainder is returned unchanged and the remainder is kept. -/
theorem remainder_eof_not_surfaced (z : Codec) (c : compressableReaderConn) (r : ReadCloser)
    (cap : Nat) (hc : c.compression = true) (hrem : c.remainder = some r) :
    ((r.Read cap).2.2 = some .EOF →
      c.Read z cap = ({ c with remainder := none }, .returned ⟨(r.Read cap).2.1, none⟩) ∧
      ∀ (cap2 : Nat) (hdr rest : List Byte), hdr.length = 7 → c.Conn.rx = hdr ++ rest →
        (isSeqError ((c.Read z cap).1.Read z cap2).2 ↔ seqField hdr ≠ (c.seq + 1) % 256)) ∧
    (∀ e, (r.Read cap).2.2 = some e → e ≠ .EOF →
      c.Read z cap =
        ({ c with remainder := some (r.Read cap).1 },
          .returned ⟨(r.Read cap).2.1, some (.io e)⟩)) ∧
    ((r.Read cap).2.2 = none →
      c.Read z cap =
        ({ c with remainder := some (r.Read cap).1 }, .returned ⟨(r.Read cap).2.1, none⟩)) := by
  have hread := compressableReaderConn.ReadN_remainder z 1 c cap r hc hrem
  refine ⟨?_, ?_, ?_⟩
  · intro hE
    have h1 : c.Read z cap =
        ({ c with remainder := none }, .returned ⟨(r.Read cap).2.1, none⟩) := by
      rw [compressableReaderConn.Read, hread, if_pos hE]
    refine ⟨h1, ?_⟩
    intro cap2 hdr rest hl hrx
    rw [h1]
    constructor
    · intro h hs
      exact compressableReaderConn.accept_no_seqError z { c with remainder := none } cap2 hdr
        rest hc rfl hl hrx hs h
    · intro hs
      rw [compressableReaderConn.Read,
        compressableReaderConn.ReadN_reject z 1 { c with remainder := none } cap2 hdr rest
          hc rfl hl hrx hs]
      exact ⟨_, _, _, rfl, rfl⟩
  · intro e he hne
    rw [compressableReaderConn.Read, hread, if_neg (by rw [he]; simpa using hne), he]
    rfl
  · intro hn
    rw [compressableReaderConn.Read, hread, if_neg (by rw [hn]; simp), hn]
    rfl

theorem remainder_eof_not_surfaced_witness :
    (⟨freshConn [], true, 128, some ⟨[[97, 98]], .EOF⟩⟩ : compressableReaderConn).Read
        plainCodec 5 =
      (⟨freshConn [], true, 128, none⟩, .returned ⟨[97, 98], none⟩) ∧
    (⟨freshConn [], true, 128, some ⟨[[97, 98]], .other 4⟩⟩ : compressableReaderConn).Read
        plainCodec 5 =
      (⟨freshConn [], true, 128, some ⟨[], .other 4⟩⟩,
        .returned ⟨[97, 98], some (.io (.other 4))⟩) :=
  ⟨((remainder_eof_not_surfaced plainCodec ⟨freshConn [], true, 128, some ⟨[[97, 98]], .EOF⟩⟩
      ⟨[[97, 98]], .EOF⟩ 5 rfl rfl).1 rfl).1,
    (remainder_eof_not_surfaced plainCodec ⟨freshConn [], true, 128, some ⟨[[97, 98]], .other 4⟩⟩
      ⟨[[97, 98]], .other 4⟩ 5 rfl rfl).2.1 (.other 4) rfl (by decide)⟩

/-- Claim C16: with compression on and no remainder pending, when the frame
source cannot deliver the 7 header bytes and reports error `e`, `Read` returns
`n = 0` and that same `e`; sequence counter, flag and remainder stay as they
were. -/
theorem header_read_failure (z : Codec) (c : compressableReaderConn) (cap : Nat)
    (nc : NetConn) (e : StreamError) (hc : c.compression = true) (hrem : c.remainder = none)
    (hf : buffer.readNext c.Conn 7 = (nc, .error e)) :
    c.Read z cap = ({ c with Conn := nc }, .returned ⟨[], some (.io e)⟩) ∧
    (c.Read z cap).1.seq = c.seq ∧ (c.Read z cap).1.remainder = c.remainder ∧
    (c.Read z cap).1.compression = c.compression := by
  have h : c.Read z cap = ({ c with Conn := nc }, .returned ⟨[], some (.io e)⟩) := by
    show compressableReaderConn.ReadN z (1 + 1) c cap = _
    rw [compressableReaderConn.ReadN, if_neg (by simp [hc])]
    simp only [hrem, compressableReaderConn.readCompressedHeader, hf]
  rw [h]
  exact ⟨rfl, rfl, rfl, rfl⟩

theorem header_read_failure_witness :
    (⟨⟨[1, 2, 3], .other 9, [], []⟩, true, 5, none⟩ : compressableReaderConn).Read plainCodec 8 =
      (⟨⟨[1, 2, 3], .other 9, [], []⟩, true, 5, none⟩, .returned ⟨[], some (.io (.other 9))⟩) :=
  (header_read_failure plainCodec ⟨⟨[1, 2, 3], .other 9, [], []⟩, true, 5, none⟩ 8
    ⟨[1, 2, 3], .other 9, [], []⟩ (.other 9) rfl rfl rfl).1

/-- Claim C17, as the code behaves.  The first half of the claim holds: when
the raw write of the frame header fails with `e`, `Write` returns `(0, e)` and
that header is the only raw write of the call.  The second half has nothing to
apply to: `Write` never hands a body to the raw stream, every raw write it
makes is a header.  When the header write succeeds and the next raw write
fails with `e`, that write is a second header, carrying the next sequence id,
and `(0, e)` is the error of this header write. -/
theorem write_failure_propagation (z : Codec) (c : compressableWriterConn) (b : List Byte)
    (fuel : Nat) (e : StreamError) (hc : c.compression = true) (hr : c.headerReady) :
    (c.Conn.txPlan.head? = some (some e) → b.length ≤ 50 →
      (c.Write z (fuel + 1) b).2 = .returned (0, some (.io e)) ∧
      rawWrites c (c.Write z (fuel + 1) b).1 = [headerBytes b.length c.seq]) ∧
    (c.Conn.txPlan.head? = some (some e) → ∀ res, 50 < b.length → z.compress b = .ok res →
      (c.Write z (fuel + 1) b).2 = .returned (0, some (.io e)) ∧
      rawWrites c (c.Write z (fuel + 1) b).1 = [headerBytes res.length c.seq]) ∧
    (∀ w ∈ rawWrites c (c.Write z fuel b).1, ∃ n s, w = headerBytes n s) ∧
    (b.length ≠ 7 → b ∉ rawWrites c (c.Write z fuel b).1) ∧
    (∀ plan, c.Conn.txPlan = none :: some e :: plan → b.length ≤ 50 →
      (c.Write z (fuel + 2) b).2 = .returned (0, some (.io e)) ∧
      rawWrites c (c.Write z (fuel + 2) b).1 =
        [headerBytes b.length c.seq, headerBytes b.length (c.seq + 1)]) ∧
    (∀ plan res, c.Conn.txPlan = none :: some e :: plan → 50 < b.length →
      z.compress b = .ok res → res.length ≤ 50 →
      (c.Write z (fuel + 2) b).2 = .returned (0, some (.io e)) ∧
      rawWrites c (c.Write z (fuel + 2) b).1 =
        [headerBytes res.length c.seq, headerBytes res.length (c.seq + 1)]) ∧
    (∀ plan res res2, c.Conn.txPlan = none :: some e :: plan → 50 < b.length →
      z.compress b = .ok res → 50 < res.length → z.recompress res = .ok res2 →
      (c.Write z (fuel + 2) b).2 = .returned (0, some (.io e)) ∧
      rawWrites c (c.Write z (fuel + 2) b).1 =
        [headerBytes res.length c.seq, headerBytes res2.length (c.seq + 1)]) := by
  have honly := compressableWriterConn.WriteN_only_headers z fuel c b false hc hr
  have hw1 : ∀ (plan : List (Option StreamError)) (h : List Byte),
      c.Conn.txPlan = none :: some e :: plan →
      c.Conn.Write h = ({ c.Conn with tx := c.Conn.tx ++ [h], txPlan := some e :: plan },
        h.length, none) := by
    intro plan h hp
    unfold NetConn.Write
    simp [hp]
  refine ⟨?_, ?_, honly, ?_, ?_, ?_, ?_⟩
  · intro hf hsmall
    have hw := NetConn.Write_of_fail c.Conn (headerBytes b.length c.seq) e hf
    rw [compressableWriterConn.Write, compressableWriterConn.WriteN, if_neg (by simp [hc]),
      if_pos hsmall, compressableWriterConn.writeHeader_ready c b.length 0 hr]
    simp [hw, rawWrites]
  · intro hf res hlarge hz
    have hr0 : ({ c with compressor := res } : compressableWriterConn).headerReady := hr
    have hw := NetConn.Write_of_fail c.Conn (headerBytes res.length c.seq) e hf
    rw [compressableWriterConn.Write, compressableWriterConn.WriteN, if_neg (by simp [hc]),
      if_neg (by omega)]
    simp only [Bool.false_eq_true, if_false, hz]
    rw [compressableWriterConn.writeHeader_ready _ res.length b.length hr0]
    simp [hw, rawWrites]
  · intro hlen hmem
    obtain ⟨n, s, hb⟩ := honly b hmem
    rw [hb] at hlen
    exact hlen rfl
  · intro plan hp hsmall
    have hh := headerBytes_seq_mod b.length c.seq 0
    rw [compressableWriterConn.Write, compressableWriterConn.WriteN, if_neg (by simp [hc]),
      if_pos hsmall, compressableWriterConn.writeHeader_ready c b.length 0 hr]
    simp only [hw1 plan _ hp, Option.map_none']
    rw [compressableWriterConn.WriteN, if_neg (by simp [hc]), if_pos hsmall,
      compressableWriterConn.writeHeader_ready _ b.length 0 ⟨_, rfl, headerBytes_length _ _⟩]
    simp only [Nat.add_zero] at hh
    simp [NetConn.Write, rawWrites, hh]
  · intro plan res hp hlarge hz hres
    have hh := headerBytes_seq_mod res.length c.seq 0
    have hr0 : ({ c with compressor := res } : compressableWriterConn).headerReady := hr
    rw [compressableWriterConn.Write, compressableWriterConn.WriteN, if_neg (by simp [hc]),
      if_neg (by omega)]
    simp only [Bool.false_eq_true, if_false, hz]
    rw [compressableWriterConn.writeHeader_ready _ res.length b.length hr0]
    simp only [hw1 plan _ hp, Option.map_none']
    rw [compressableWriterConn.WriteN, if_neg (by simp [hc]), if_pos hres,
      compressableWriterConn.writeHeader_ready _ res.length 0 ⟨_, rfl, headerBytes_length _ _⟩]
    simp only [Nat.add_zero] at hh
    simp [NetConn.Write, rawWrites, hh]
  · intro plan res res2 hp hlarge hz hres hz2
    have hh := headerBytes_seq_mod res2.length c.seq 0
    have hr0 : ({ c with compressor := res } : compressableWriterConn).headerReady := hr
    rw [compressableWriterConn.Write, compressableWriterConn.WriteN, if_neg (by simp [hc]),
      if_neg (by omega)]
    simp only [Bool.false_eq_true, if_false, hz]
    rw [compressableWriterConn.writeHeader_ready _ res.length b.length hr0]
    simp only [hw1 plan _ hp, Option.map_none']
    rw [compressableWriterConn.WriteN, if_neg (by simp [hc]), if_neg (by omega)]
    simp only [if_true, hz2]
    rw [compressableWriterConn.writeHeader_ready _ res2.length res.length
      ⟨_, rfl, headerBytes_length _ _⟩]
    simp only [Nat.add_zero] at hh
    simp [NetConn.Write, rawWrites, hh]

theorem write_failure_propagation_witness :
    ((⟨⟨[], .EOF, [], [none, some (.other 5)]⟩, true, 0, some (List.replicate 7 0), []⟩ :
        compressableWriterConn).Write plainCodec 4 [97, 97, 97]).2 =
      .returned (0, some (.io (.other 5))) ∧
    rawWrites ⟨⟨[], .EOF, [], [none, some (.other 5)]⟩, true, 0, some (List.replicate 7 0), []⟩
      ((⟨⟨[], .EOF, [], [none, some (.other 5)]⟩, true, 0, some (List.replicate 7 0), []⟩ :
        compressableWriterConn).Write plainCodec 4 [97, 97, 97]).1 =
      [[3, 0, 0, 0, 3, 0, 0], [3, 0, 0, 1, 3, 0, 0]] :=
  (write_failure_propagation plainCodec
    ⟨⟨[], .EOF, [], [none, some (.other 5)]⟩, true, 0, some (List.replicate 7 0), []⟩
    [97, 97, 97] 2 (.other 5) rfl ⟨_, rfl, rfl⟩).2.2.2.2.1 [] rfl (by decide)

/-- Claim C18: for a compressed length `n < 2^24`, any uncompressed length `u`
and an encoder whose counter is `s`, `writeHeader(n, u)` sends 7 bytes from
which `readCompressedHeader` obtains `(n, s, nil)`. -/
theorem header_round_trip (w : compressableWriterConn) (r : compressableReaderConn)
    (n u : Nat) (rest : List Byte) (hr : w.headerReady) (hn : n < 2 ^ 24) (hs : w.seq < 256) :
    (∃ w1 e, w.writeHeader n u = .returned (w1, e) ∧ rawWrites w w1 = [headerBytes n w.seq]) ∧
    (headerBytes n w.seq).length = 7 ∧
    (r.Conn.rx = headerBytes n w.seq ++ rest →
      r.readCompressedHeader =
        ({ r with Conn := { r.Conn with rx := rest } }, n, w.seq, none)) := by
  refine ⟨⟨_, _, compressableWriterConn.writeHeader_ready w n u hr, ?_⟩, rfl, ?_⟩
  · simp [rawWrites, NetConn.Write_tx]
  · intro hrx
    rw [compressableReaderConn.readCompressedHeader_ok r (headerBytes n w.seq) rest rfl hrx,
      (parsedLength_bytes _ (headerBytes_bytes n w.seq)).1, lengthField_headerBytes,
      seqField_headerBytes, Nat.mod_eq_of_lt hn, Nat.mod_eq_of_lt hs]

theorem header_round_trip_witness :
    (⟨freshConn ([0x39, 0x30, 0, 7, 0x39, 0x30, 0] ++ [1, 2]), true, 6, none⟩ :
        compressableReaderConn).readCompressedHeader =
      (⟨freshConn [1, 2], true, 6, none⟩, 12345, 7, none) :=
  (header_round_trip ⟨freshConn [], true, 7, some (List.replicate 7 0), []⟩
    ⟨freshConn ([0x39, 0x30, 0, 7, 0x39, 0x30, 0] ++ [1, 2]), true, 6, none⟩ 12345 99 [1, 2]
    ⟨_, rfl, rfl⟩ (by decide) (by decide)).2.2 (by decide)

/-- Claim C19: `writeHeader` accepts every length: it returns without panic,
its only error being that of the raw write, and the length field of the
header it sends is `n mod 2^24`; so for a body of 2^24 bytes or more the
declared length differs from the real one and no error is reported.  In
`Write` this is the header sent for a zlib output `res` of that size. -/
theorem length_truncation (z : Codec) (c : compressableWriterConn) (n u : Nat)
    (hr : c.headerReady) :
    (∃ c1, c.writeHeader n u =
        .returned (c1, (c.Conn.Write (headerBytes n c.seq)).2.2.map Error.io) ∧
      rawWrites c c1 = [headerBytes n c.seq]) ∧
    (c.Conn.writesSucceed → ∃ c1, c.writeHeader n u = .returned (c1, none)) ∧
    lengthField (headerBytes n c.seq) = n % 2 ^ 24 ∧
    (2 ^ 24 ≤ n → lengthField (headerBytes n c.seq) ≠ n) ∧
    (∀ (b res : List Byte) (fuel : Nat), c.compression = true → 50 < b.length →
      z.compress b = .ok res →
      ∃ hd, (rawWrites c (c.Write z (fuel + 1) b).1).head? = some hd ∧
        lengthField hd = res.length % 2 ^ 24) := by
  have h1 := compressableWriterConn.writeHeader_ready c n u hr
  refine ⟨⟨_, h1, by simp [rawWrites, NetConn.Write_tx]⟩, ?_, lengthField_headerBytes n c.seq,
    ?_, ?_⟩
  · intro hw
    rw [h1, NetConn.Write_of_succeed c.Conn _ hw]
    exact ⟨_, rfl⟩
  · intro hn
    rw [lengthField_headerBytes]
    have := Nat.mod_lt n (show 0 < 2 ^ 24 by decide)
    omega
  · intro b res fuel hc hb hz
    obtain ⟨rest, h⟩ := compressableWriterConn.WriteN_first_large z fuel c b res false hc hr hb
      (by simpa using hz)
    exact ⟨headerBytes res.length c.seq, by simp [rawWrites, compressableWriterConn.Write, h],
      lengthField_headerBytes _ _⟩

theorem length_truncation_witness :
    lengthField (headerBytes (2 ^ 24 + 5) 0) = 5 ∧
    ∃ c1, (⟨freshConn [], true, 0, some (List.replicate 7 0), []⟩ :
        compressableWriterConn).writeHeader (2 ^ 24 + 5) 0 = .returned (c1, none) :=
  have h := length_truncation plainCodec ⟨freshConn [], true, 0, some (List.replicate 7 0), []⟩
    (2 ^ 24 + 5) 0 ⟨_, rfl, rfl⟩
  ⟨h.2.2.1, h.2.1 (by decide)⟩

/-- Claim C20: in every writer state reachable from the zero value through
`activateCompression`, `Write` and `writeHeader`, compression on implies a
header slice of exactly 7 bytes, so `writeHeader` does not panic on its stores
`header[0..6]`; and activating such a state again keeps the same header slice
and sets the sequence counter to 0. -/
theorem header_buffer_safety (z : Codec) (c : compressableWriterConn)
    (h : WriterReachable z c) (hc : c.compression = true) :
    (∃ hd, c.header = some hd ∧ hd.length = 7) ∧
    (∀ n u, c.writeHeader n u ≠ .panicked) ∧
    c.activateCompression.1.header = c.header ∧
    c.activateCompression.1.seq = 0 ∧
    c.activateCompression.1.compression = true := by
  have hr : c.headerReady := h.headerInv.2 hc
  refine ⟨hr, ?_, ?_, rfl, rfl⟩
  · intro n u
    rw [compressableWriterConn.writeHeader_ready c n u hr]
    simp
  · obtain ⟨hd, hh, _⟩ := hr
    simp [compressableWriterConn.activateCompression, hh]

theorem header_buffer_safety_witness :
    (((newWriter (freshConn [])).activateCompression.1.Write plainCodec 3
        [97, 97, 97]).1.activateCompression.1).header = some [3, 0, 0, 2, 3, 0, 0] ∧
    (((newWriter (freshConn [])).activateCompression.1.Write plainCodec 3
        [97, 97, 97]).1.activateCompression.1).seq = 0 :=
  have h := header_buffer_safety plainCodec
    ((newWriter (freshConn [])).activateCompression.1.Write plainCodec 3 [97, 97, 97]).1
    (.write 3 [97, 97, 97] (.activate (.zero (freshConn [])))) rfl
  ⟨h.2.2.1, h.2.2.2.1⟩

end Compression
